import Mathlib

/-!
Verification of the move-model expression substrate (`move-model/src/ast.rs`)
and the memory usage analysis (`move-prover/bytecode/src/usage_analysis.rs`).

The Rust sources are shallowly embedded: identifiers become `Nat`, the
interned `Exp` wrapper is flattened into the underlying `ExpData` tree
(interning guarantees structural equality and plays no computational role),
`BTreeSet` becomes `Finset`, and stateful visitor closures become explicit
state passing.  Components of the repository that are external collaborators
or not part of the provided sources (the type representation `ty.rs`, the
set domain of `dataflow_domains.rs`, the summary cache of
`compositional_analysis.rs`, the rewrite descent of `exp_rewriter.rs`) are
modelled from the specification and marked as such.
-/

-- ==============================================================
-- Base identifiers.  All identifier newtypes of the model crate
-- (NodeId, ModuleId, StructId, FunId, SpecFunId, FieldId, GlobalId)
-- wrap plain integers; they are embedded as `Nat`.
-- ==============================================================

abbrev NodeId := Nat

abbrev Symb := Nat

abbrev ModuleId := Nat

abbrev StructId := Nat

abbrev FunId := Nat

abbrev SpecFunId := Nat

abbrev FieldId := Nat

abbrev TempIndex := Nat

abbrev CodeOffset := Nat

-- A label used for referring to a specific memory in Global and Exists
-- expressions (ast.rs: `pub type MemoryLabel = GlobalId`).
abbrev MemoryLabel := Nat

/-- Modelled from the spec: the type representation of the external `ty.rs`
(not among the provided sources).  Only the shape needed by the analyses is
kept: type parameters (for instantiation), struct types (for
`require_struct`), references (for `is_mutable_reference`, the flag is
mutability) and a catch-all for the primitive types. -/
inductive Ty where
  | TypeParameter : Nat → Ty
  | Primitive : Nat → Ty
  | Struct : ModuleId → StructId → List Ty → Ty
  | Reference : Bool → Ty → Ty

mutual
def Ty.deq : (a b : Ty) → Decidable (a = b)
  | .TypeParameter i, .TypeParameter j =>
    match decEq i j with
    | isTrue h => isTrue (by rw [h])
    | isFalse h => isFalse (by intro hh; cases hh; exact h rfl)
  | .Primitive i, .Primitive j =>
    match decEq i j with
    | isTrue h => isTrue (by rw [h])
    | isFalse h => isFalse (by intro hh; cases hh; exact h rfl)
  | .Struct m s ts, .Struct m2 s2 ts2 =>
    match decEq m m2, decEq s s2, Ty.deqList ts ts2 with
    | isTrue h1, isTrue h2, isTrue h3 => isTrue (by rw [h1, h2, h3])
    | isFalse h1, _, _ => isFalse (by intro hh; cases hh; exact h1 rfl)
    | _, isFalse h2, _ => isFalse (by intro hh; cases hh; exact h2 rfl)
    | _, _, isFalse h3 => isFalse (by intro hh; cases hh; exact h3 rfl)
  | .Reference b t, .Reference b2 t2 =>
    match decEq b b2, Ty.deq t t2 with
    | isTrue h1, isTrue h2 => isTrue (by rw [h1, h2])
    | isFalse h1, _ => isFalse (by intro hh; cases hh; exact h1 rfl)
    | _, isFalse h2 => isFalse (by intro hh; cases hh; exact h2 rfl)
  | .TypeParameter _, .Primitive _ => isFalse (by intro h; cases h)
  | .TypeParameter _, .Struct _ _ _ => isFalse (by intro h; cases h)
  | .TypeParameter _, .Reference _ _ => isFalse (by intro h; cases h)
  | .Primitive _, .TypeParameter _ => isFalse (by intro h; cases h)
  | .Primitive _, .Struct _ _ _ => isFalse (by intro h; cases h)
  | .Primitive _, .Reference _ _ => isFalse (by intro h; cases h)
  | .Struct _ _ _, .TypeParameter _ => isFalse (by intro h; cases h)
  | .Struct _ _ _, .Primitive _ => isFalse (by intro h; cases h)
  | .Struct _ _ _, .Reference _ _ => isFalse (by intro h; cases h)
  | .Reference _ _, .TypeParameter _ => isFalse (by intro h; cases h)
  | .Reference _ _, .Primitive _ => isFalse (by intro h; cases h)
  | .Reference _ _, .Struct _ _ _ => isFalse (by intro h; cases h)

def Ty.deqList : (a b : List Ty) → Decidable (a = b)
  | [], [] => isTrue rfl
  | [], _ :: _ => isFalse (by intro h; cases h)
  | _ :: _, [] => isFalse (by intro h; cases h)
  | x :: xs, y :: ys =>
    match Ty.deq x y, Ty.deqList xs ys with
    | isTrue h1, isTrue h2 => isTrue (by rw [h1, h2])
    | isFalse h1, _ => isFalse (by intro hh; cases hh; exact h1 rfl)
    | _, isFalse h2 => isFalse (by intro hh; cases hh; exact h2 rfl)
end

instance : DecidableEq Ty := Ty.deq

mutual
/-- Modelled from the spec: `Type::instantiate` of the external `ty.rs` —
replaces type parameter `i` by the i-th entry of `params` (kept unchanged
when out of range), descending through type constructors. -/
def Ty.instantiate (params : List Ty) : Ty → Ty
  | .TypeParameter i => params.getD i (.TypeParameter i)
  | .Primitive p => .Primitive p
  | .Struct m s ts => .Struct m s (Ty.instantiateList params ts)
  | .Reference b t => .Reference b (Ty.instantiate params t)

def Ty.instantiateList (params : List Ty) : List Ty → List Ty
  | [] => []
  | t :: ts => Ty.instantiate params t :: Ty.instantiateList params ts
end

/-- Modelled from the spec: `Type::require_struct` of the external `ty.rs` —
the struct components of a type; a non-struct type makes the source panic,
embedded as `none`. -/
def Ty.require_struct : Ty → Option (ModuleId × StructId × List Ty)
  | .Struct m s ts => some (m, s, ts)
  | _ => none

/-- Modelled from the spec: `Type::is_mutable_reference` of the external
`ty.rs`. -/
def Ty.is_mutable_reference : Ty → Bool
  | .Reference b _ => b
  | _ => false

/-- `QualifiedId` of the external model crate: a module id paired with an id
of an item in the module. -/
structure QualifiedId where
  module_id : ModuleId
  id : Nat
  deriving DecidableEq

/-- `QualifiedInstId<StructId>`: a struct qualified by module and
instantiated with type arguments. -/
structure QualifiedInstId where
  module_id : ModuleId
  id : StructId
  inst : List Ty
  deriving DecidableEq

def QualifiedInstId.instantiate (self : QualifiedInstId) (params : List Ty) : QualifiedInstId :=
  { self with inst := Ty.instantiateList params self.inst }

-- `instantiate_ref` of the source is the by-reference variant of
-- `instantiate`; both produce the same value.
def QualifiedInstId.instantiate_ref (self : QualifiedInstId) (params : List Ty) : QualifiedInstId :=
  self.instantiate params

def mk_qualified_inst (mid : ModuleId) (sid : StructId) (inst : List Ty) : QualifiedInstId :=
  ⟨mid, sid, inst⟩

-- ==============================================================
-- The expression model of move-model/src/ast.rs.
-- ==============================================================

/-- ast.rs `Value`. -/
inductive Value where
  | Address : Nat → Value
  | Number : Int → Value
  | Bool : Bool → Value
  | ByteArray : List Nat → Value

/-- ast.rs `Operation`: the closed tag set of builtin and user operations.
All variants of the source enum are kept. -/
inductive Operation where
  | Function : ModuleId → SpecFunId → Option (List MemoryLabel) → Operation
  | Pack : ModuleId → StructId → Operation
  | Tuple
  | Select : ModuleId → StructId → FieldId → Operation
  | UpdateField : ModuleId → StructId → FieldId → Operation
  | Result : Nat → Operation
  | Index
  | Slice
  | Range
  | Add | Sub | Mul | Mod | Div
  | BitOr | BitAnd | Xor | Shl | Shr
  | Implies | Iff | And | Or
  | Eq | Identical | Neq | Lt | Gt | Le | Ge
  | Not
  | Len | TypeValue | TypeDomain | ResourceDomain
  | Global : Option MemoryLabel → Operation
  | Exists : Option MemoryLabel → Operation
  | CanModify | Old | Trace
  | EmptyVec | SingleVec | UpdateVec | ConcatVec | IndexOfVec | ContainsVec
  | InRangeRange | InRangeVec | RangeVec
  | MaxU8 | MaxU64 | MaxU128
  | AbortFlag | AbortCode | WellFormed | BoxValue | UnboxValue
  | EmptyEventStore | ExtendEventStore | EventStoreIncludes | EventStoreIncludedIn
  | NoOp

/-- ast.rs `QuantKind`. -/
inductive QuantKind where
  | Forall | Exists | Choose | ChooseMin
  deriving DecidableEq

mutual
/-- ast.rs `ExpData`: the expression tree.  The interned `Exp` handle is
flattened into the tree itself. -/
inductive ExpData where
  | Invalid : NodeId → ExpData
  | Value : NodeId → Value → ExpData
  | LocalVar : NodeId → Symb → ExpData
  | Temporary : NodeId → TempIndex → ExpData
  | Call : NodeId → Operation → List ExpData → ExpData
  | Invoke : NodeId → ExpData → List ExpData → ExpData
  | Lambda : NodeId → List LocalVarDecl → ExpData → ExpData
  | Quant : NodeId → QuantKind → List (LocalVarDecl × ExpData) →
      List (List ExpData) → Option ExpData → ExpData → ExpData
  | Block : NodeId → List LocalVarDecl → ExpData → ExpData
  | IfElse : NodeId → ExpData → ExpData → ExpData → ExpData

/-- ast.rs `LocalVarDecl`: id, name and optional binding. -/
inductive LocalVarDecl where
  | mk : NodeId → Symb → Option ExpData → LocalVarDecl
end

def LocalVarDecl.id : LocalVarDecl → NodeId
  | .mk i _ _ => i

def LocalVarDecl.name : LocalVarDecl → Symb
  | .mk _ n _ => n

def LocalVarDecl.binding : LocalVarDecl → Option ExpData
  | .mk _ _ b => b

/-- ast.rs `ConditionKind`. -/
inductive ConditionKind where
  | LetPost : Symb → ConditionKind
  | LetPre : Symb → ConditionKind
  | Assert
  | Assume
  | Decreases
  | AbortsIf
  | AbortsWith
  | SucceedsIf
  | Modifies
  | Emits
  | Ensures
  | Requires
  | StructInvariant
  | FunctionInvariant
  | LoopInvariant
  | GlobalInvariant : List Symb → ConditionKind
  | GlobalInvariantUpdate : List Symb → ConditionKind
  | SchemaInvariant
  | Axiom : List Symb → ConditionKind
  | Update
  deriving DecidableEq

/-- ast.rs `Condition`.  The source location and the pragma property bag are
purely diagnostic and are not modelled. -/
structure Condition where
  kind : ConditionKind
  exp : ExpData
  additional_exps : List ExpData

/-- ast.rs `Spec`: the ordered collection of conditions of a specification.
The location, property bag and per-code-offset sub-specs are not consumed by
the usage analysis and are not modelled. -/
structure Spec where
  conditions : List Condition

/-- The global program database (external collaborator, spec section 6): node
attribute lookup and per-declaration metadata, embedded as plain functions.
`spec_fun_used_memory` is the declared `used_memory` set of a specification
function, in iteration order of the source BTreeSet; `struct_sym_str` is the
symbol-pool string of a struct symbol. -/
structure GlobalEnv where
  get_node_type : NodeId → Ty
  get_node_instantiation : NodeId → List Ty
  spec_fun_used_memory : ModuleId → SpecFunId → List QualifiedInstId
  struct_sym_str : StructId → String

-- ==============================================================
-- Traversal: ast.rs `visit_pre_post` and `visit`.  The `FnMut` visitor
-- becomes a state transformer, invoked with flag `false` before and `true`
-- after descending, in the fixed child order of the source.
-- ==============================================================

mutual
def visit_pre_post (f : Bool → ExpData → σ → σ) (e : ExpData) (s : σ) : σ :=
  let s1 := f false e s
  let s2 :=
    match e with
    | .Call _ _ args => vppList f args s1
    | .Invoke _ target args => vppList f args (visit_pre_post f target s1)
    | .Lambda _ _ body => visit_pre_post f body s1
    | .Quant _ _ ranges triggers cond body =>
        visit_pre_post f body (vppOpt f cond (vppTriggers f triggers (vppRanges f ranges s1)))
    | .Block _ decls body => visit_pre_post f body (vppDecls f decls s1)
    | .IfElse _ c t e2 => visit_pre_post f e2 (visit_pre_post f t (visit_pre_post f c s1))
    | .Invalid _ => s1
    | .Value _ _ => s1
    | .LocalVar _ _ => s1
    | .Temporary _ _ => s1
  f true e s2

def vppList (f : Bool → ExpData → σ → σ) (es : List ExpData) (s : σ) : σ :=
  match es with
  | [] => s
  | e :: rest => vppList f rest (visit_pre_post f e s)

def vppRanges (f : Bool → ExpData → σ → σ) (rs : List (LocalVarDecl × ExpData)) (s : σ) : σ :=
  match rs with
  | [] => s
  | (d, r) :: rest =>
      let s1 := match d with
        | .mk _ _ (some b) => visit_pre_post f b s
        | .mk _ _ none => s
      vppRanges f rest (visit_pre_post f r s1)

def vppTriggers (f : Bool → ExpData → σ → σ) (ts : List (List ExpData)) (s : σ) : σ :=
  match ts with
  | [] => s
  | t :: rest => vppTriggers f rest (vppList f t s)

def vppOpt (f : Bool → ExpData → σ → σ) (oe : Option ExpData) (s : σ) : σ :=
  match oe with
  | some e => visit_pre_post f e s
  | none => s

def vppDecls (f : Bool → ExpData → σ → σ) (ds : List LocalVarDecl) (s : σ) : σ :=
  match ds with
  | [] => s
  | .mk _ _ (some b) :: rest => vppDecls f rest (visit_pre_post f b s)
  | .mk _ _ none :: rest => vppDecls f rest s
end

/-- ast.rs `visit`: depth-first visit calling the visitor on each
sub-expression (the post phase of `visit_pre_post`). -/
def ExpData.visit (f : ExpData → σ → σ) (e : ExpData) (s : σ) : σ :=
  visit_pre_post (fun up x t => if up then f x t else t) e s

-- ==============================================================
-- ast.rs `ExpData::free_vars`: free local variables with their types,
-- ordered by occurrence.  The visitor state is the pair of the `shadowed`
-- list (a multiset of currently bound names, names bound several times
-- occurring several times) and the accumulated `vars`.
-- ==============================================================

/-- The binder names a node introduces for its sub-expressions (the `decls`
extraction at the head of the `free_vars` visitor). -/
def fv_decls : ExpData → List Symb
  | .Lambda _ decls _ => decls.map LocalVarDecl.name
  | .Block _ decls _ => decls.map LocalVarDecl.name
  | .Quant _ _ ranges _ _ _ => ranges.map (fun p => p.1.name)
  | _ => []

/-- The `free_vars` visitor: on entry the binders are appended to
`shadowed`; on exit one instance of each binder is removed again, and a
local variable is recorded when it is neither shadowed nor already
recorded. -/
def fvStep (env : GlobalEnv) (up : Bool) (e : ExpData) :
    List Symb × List (Symb × Ty) → List Symb × List (Symb × Ty) :=
  fun (st : List Symb × List (Symb × Ty)) =>
    let shadowed := st.1
    let vars := st.2
    let decls := fv_decls e
    if !up then (shadowed ++ decls, vars)
    else
      let shadowed2 := decls.foldl (fun sh sym => sh.erase sym) shadowed
      match e with
      | .LocalVar id sym =>
          if sym ∉ shadowed2 ∧ ¬ (∃ p ∈ vars, p.1 = sym) then
            (shadowed2, vars ++ [(sym, env.get_node_type id)])
          else (shadowed2, vars)
      | _ => (shadowed2, vars)

def ExpData.free_vars (env : GlobalEnv) (e : ExpData) : List (Symb × Ty) :=
  (visit_pre_post (fvStep env) e ([], [])).2

-- ==============================================================
-- ast.rs `ExpData::used_memory`: the (instantiated struct, optional label)
-- pairs referenced by exists/global operations or through calls to
-- specification functions.  Panics of the source (an `exists`/`global`
-- node without a struct instantiation, or a label list shorter than the
-- used-memory list) are embedded as `Except.error`.
-- ==============================================================

abbrev UsedMemorySet := Finset (QualifiedInstId × Option MemoryLabel)

/-- The panics `used_memory` can run into (indexing an empty node
instantiation, `require_struct` on a non-struct type, indexing a too-short
memory label list). -/
inductive UmPanic where
  | EmptyInstantiation
  | NotAStruct
  | LabelIndexOutOfBounds
  deriving DecidableEq

/-- One step of the `used_memory` visitor: the effect of a single node on
the accumulated set. -/
def umStep (env : GlobalEnv) (e : ExpData) :
    Except UmPanic UsedMemorySet → Except UmPanic UsedMemorySet
  | .error msg => .error msg
  | .ok result =>
    match e with
    | .Call id (.Exists label) _ =>
        match (env.get_node_instantiation id).head? with
        | none => .error .EmptyInstantiation
        | some ty =>
          match ty.require_struct with
          | none => .error .NotAStruct
          | some (mid, sid, sinst) =>
              .ok (insert (mk_qualified_inst mid sid sinst, label) result)
    | .Call id (.Global label) _ =>
        match (env.get_node_instantiation id).head? with
        | none => .error .EmptyInstantiation
        | some ty =>
          match ty.require_struct with
          | none => .error .NotAStruct
          | some (mid, sid, sinst) =>
              .ok (insert (mk_qualified_inst mid sid sinst, label) result)
    | .Call id (.Function mid fid labels) _ =>
        let inst := env.get_node_instantiation id
        (env.spec_fun_used_memory mid fid).enum.foldl
          (fun acc (p : Nat × QualifiedInstId) =>
            match acc with
            | .error msg => .error msg
            | .ok r =>
              match labels with
              | none => .ok (insert (p.2.instantiate inst, none) r)
              | some l =>
                match l.get? p.1 with
                | some lab => .ok (insert (p.2.instantiate inst, some lab) r)
                | none => .error .LabelIndexOutOfBounds)
          (.ok result)
    | _ => .ok result

def ExpData.used_memory (env : GlobalEnv) (e : ExpData) : Except UmPanic UsedMemorySet :=
  ExpData.visit (umStep env) e (.ok ∅)

-- ==============================================================
-- ast.rs `ExpData::is_pure`: impure when the expression contains a
-- mutable-reference temporary, an exists/global operation, or a call to a
-- specification function with non-empty declared used memory.
-- ==============================================================

/-- One step of the `is_pure` visitor. -/
def ipStep (env : GlobalEnv) (e : ExpData) (b : Bool) : Bool :=
  match e with
  | .Temporary id _ => if (env.get_node_type id).is_mutable_reference then false else b
  | .Call _ oper _ =>
    match oper with
    | .Exists _ => false
    | .Global _ => false
    | .Function mid fid _ =>
        if env.spec_fun_used_memory mid fid ≠ [] then false else b
    | _ => b
  | _ => b

def ExpData.is_pure (env : GlobalEnv) (e : ExpData) : Bool :=
  ExpData.visit (ipStep env) e true

-- ==============================================================
-- ast.rs `ExpData::extract_ghost_mem_access`: recognizes the shape
-- field-select of a global-read of a struct whose name carries the
-- reserved ghost-memory marker.
-- ==============================================================

/-- Modelled from the spec: the reserved name marker of ghost memory
structs (`GHOST_MEMORY_PREFIX` of the external model crate). -/
def ghost_memory_marker : String := "Ghost$"

def ExpData.extract_ghost_mem_access (env : GlobalEnv) :
    ExpData → Option (QualifiedInstId × FieldId × ExpData)
  | .Call _ (.Select _ _ field_id) sargs =>
    match sargs.head? with
    | some (.Call id (.Global none) gargs) =>
      match (env.get_node_type id).require_struct with
      | some (mid, sid, targs) =>
        if (env.struct_sym_str sid).startsWith ghost_memory_marker then
          match gargs.head? with
          | some addr => some (mk_qualified_inst mid sid targs, field_id, addr)
          | none => none
        else none
      | none => none
    | _ => none
  | _ => none

-- ==============================================================
-- ast.rs `ExpData::rewrite` family.  The rewriter is asked once per node;
-- `done` substitutes its result without further descent, `decline` passes
-- the node back for recursive rewriting of its children.
-- ==============================================================

/-- The `Result<Exp, Exp>` of the rewriter closure: `done` is the source
`Ok` (rewritten, stop descending), `decline` the source `Err` (the node is
passed back unchanged — the `Err` payload of the source only returns
ownership of the very expression the rewriter received, so it carries no
information and is dropped in the embedding). -/
inductive RewriteResult where
  | done : ExpData → RewriteResult
  | decline : RewriteResult

/-- Applying the node-identifier rewriting hook: `none` keeps the identifier
(no change reported). -/
def rwId (n : NodeId → Option NodeId) (id : NodeId) : NodeId :=
  (n id).getD id

mutual
/-- ast.rs `ExpRewriter::rewrite_exp`: ask the expression rewriter, descend
on decline. -/
def rewrite_exp (r : ExpData → RewriteResult) (n : NodeId → Option NodeId)
    (e : ExpData) : ExpData :=
  match r e with
  | .done e2 => e2
  | .decline => rewrite_exp_descent r n e

/-- Modelled from the spec: the rewrite descent of the external
`exp_rewriter.rs` (not among the provided sources) — recursively rewrite
each child, reconstruct the node with the rewritten children, and let the
identifier hook replace the node identifier. -/
def rewrite_exp_descent (r : ExpData → RewriteResult) (n : NodeId → Option NodeId)
    (e : ExpData) : ExpData :=
  match e with
  | .Invalid id => .Invalid (rwId n id)
  | .Value id v => .Value (rwId n id) v
  | .LocalVar id s => .LocalVar (rwId n id) s
  | .Temporary id t => .Temporary (rwId n id) t
  | .Call id op args => .Call (rwId n id) op (rwList r n args)
  | .Invoke id target args => .Invoke (rwId n id) (rewrite_exp r n target) (rwList r n args)
  | .Lambda id ds body => .Lambda (rwId n id) (rwDecls r n ds) (rewrite_exp r n body)
  | .Quant id k ranges triggers cond body =>
      .Quant (rwId n id) k (rwRanges r n ranges) (rwTriggers r n triggers)
        (rwOpt r n cond) (rewrite_exp r n body)
  | .Block id ds body => .Block (rwId n id) (rwDecls r n ds) (rewrite_exp r n body)
  | .IfElse id c t e2 =>
      .IfElse (rwId n id) (rewrite_exp r n c) (rewrite_exp r n t) (rewrite_exp r n e2)

def rwList (r : ExpData → RewriteResult) (n : NodeId → Option NodeId)
    (es : List ExpData) : List ExpData :=
  match es with
  | [] => []
  | e :: rest => rewrite_exp r n e :: rwList r n rest

def rwDecls (r : ExpData → RewriteResult) (n : NodeId → Option NodeId)
    (ds : List LocalVarDecl) : List LocalVarDecl :=
  match ds with
  | [] => []
  | .mk id s (some b) :: rest => .mk (rwId n id) s (some (rewrite_exp r n b)) :: rwDecls r n rest
  | .mk id s none :: rest => .mk (rwId n id) s none :: rwDecls r n rest

def rwRanges (r : ExpData → RewriteResult) (n : NodeId → Option NodeId)
    (rs : List (LocalVarDecl × ExpData)) : List (LocalVarDecl × ExpData) :=
  match rs with
  | [] => []
  | (.mk id s (some b), range) :: rest =>
      (.mk (rwId n id) s (some (rewrite_exp r n b)), rewrite_exp r n range) :: rwRanges r n rest
  | (.mk id s none, range) :: rest =>
      (.mk (rwId n id) s none, rewrite_exp r n range) :: rwRanges r n rest

def rwTriggers (r : ExpData → RewriteResult) (n : NodeId → Option NodeId)
    (ts : List (List ExpData)) : List (List ExpData) :=
  match ts with
  | [] => []
  | t :: rest => rwList r n t :: rwTriggers r n rest

def rwOpt (r : ExpData → RewriteResult) (n : NodeId → Option NodeId)
    (oe : Option ExpData) : Option ExpData :=
  match oe with
  | some e => some (rewrite_exp r n e)
  | none => none
end

/-- ast.rs `ExpData::rewrite`: rewrite with a trivial identifier hook. -/
def ExpData.rewrite (e : ExpData) (exp_rewriter : ExpData → RewriteResult) : ExpData :=
  rewrite_exp exp_rewriter (fun _ => none) e

/-- ast.rs `ExpData::rewrite_node_id`: rewrite only identifiers, with an
always-declining expression rewriter. -/
def ExpData.rewrite_node_id (e : ExpData) (node_rewriter : NodeId → Option NodeId) : ExpData :=
  rewrite_exp (fun _ => .decline) node_rewriter e

/-- ast.rs `ExpData::rewrite_exp_and_node_id`: both hooks combined. -/
def ExpData.rewrite_exp_and_node_id (e : ExpData) (exp_rewriter : ExpData → RewriteResult)
    (node_rewriter : NodeId → Option NodeId) : ExpData :=
  rewrite_exp exp_rewriter node_rewriter e

-- ==============================================================
-- The abstract-domain layer used by usage_analysis.rs.  The `SetDomain`
-- and `JoinResult` live in the external dataflow_domains.rs and are
-- modelled from the spec (section 4.2): a set domain joins by union and
-- reports Unchanged exactly when the union added no new element.
-- ==============================================================

/-- dataflow_domains.rs `JoinResult`. -/
inductive JoinResult where
  | Unchanged
  | Changed
  deriving DecidableEq

abbrev MemSet := Finset QualifiedInstId

/-- Modelled from the spec: `SetDomain::join` of the external
dataflow_domains.rs — set union, `Unchanged` iff no new element was
added. -/
def set_domain_join (self other : MemSet) : MemSet × JoinResult :=
  (self ∪ other, if other ⊆ self then .Unchanged else .Changed)

/-- usage_analysis.rs `MemoryUsage`: the memory used directly, transitively
through callees, and the union of both. -/
@[ext]
structure MemoryUsage where
  direct : MemSet
  transitive : MemSet
  all : MemSet
  deriving DecidableEq

def MemoryUsage.empty : MemoryUsage := ⟨∅, ∅, ∅⟩

/-- usage_analysis.rs `MemoryUsage::add_direct`. -/
def MemoryUsage.add_direct (self : MemoryUsage) (mem : QualifiedInstId) : MemoryUsage :=
  { self with direct := insert mem self.direct, all := insert mem self.all }

/-- usage_analysis.rs `MemoryUsage::add_transitive`. -/
def MemoryUsage.add_transitive (self : MemoryUsage) (mem : QualifiedInstId) : MemoryUsage :=
  { self with transitive := insert mem self.transitive, all := insert mem self.all }

/-- The effect of inserting every element of a set through `add_direct`
(the `_iter` loops generated by the source macro insert one element at a
time; element order does not matter for the resulting sets). -/
def MemoryUsage.add_direct_iter (self : MemoryUsage) (mems : MemSet) : MemoryUsage :=
  { self with direct := self.direct ∪ mems, all := self.all ∪ mems }

def MemoryUsage.add_transitive_iter (self : MemoryUsage) (mems : MemSet) : MemoryUsage :=
  { self with transitive := self.transitive ∪ mems, all := self.all ∪ mems }

/-- usage_analysis.rs `MemoryUsage::get_all_inst`: the `all` set with every
memory instantiated by the given type arguments. -/
def MemoryUsage.get_all_inst (self : MemoryUsage) (inst : List Ty) : MemSet :=
  self.all.image (fun mem => mem.instantiate_ref inst)

/-- usage_analysis.rs `MemoryUsage::get_direct_inst`. -/
def MemoryUsage.get_direct_inst (self : MemoryUsage) (inst : List Ty) : MemSet :=
  self.direct.image (fun mem => mem.instantiate_ref inst)

/-- usage_analysis.rs `impl AbstractDomain for MemoryUsage`: componentwise
set join; Unchanged only when every component is unchanged. -/
def MemoryUsage.join (self other : MemoryUsage) : MemoryUsage × JoinResult :=
  let d := set_domain_join self.direct other.direct
  let t := set_domain_join self.transitive other.transitive
  let a := set_domain_join self.all other.all
  (⟨d.1, t.1, a.1⟩,
    match d.2, t.2, a.2 with
    | .Unchanged, .Unchanged, .Unchanged => .Unchanged
    | _, _, _ => .Changed)

/-- usage_analysis.rs `UsageState`: accessed / modified / assumed /
asserted, with accessed the union of the other three. -/
@[ext]
structure UsageState where
  accessed : MemoryUsage
  modified : MemoryUsage
  assumed : MemoryUsage
  asserted : MemoryUsage
  deriving DecidableEq

def UsageState.empty : UsageState :=
  ⟨MemoryUsage.empty, MemoryUsage.empty, MemoryUsage.empty, MemoryUsage.empty⟩

-- The inserter family generated by the `generate_inserter!` macro: each
-- insertion into a field is mirrored by the same insertion into `accessed`
-- (for the `accessed` field itself the two insertions coincide).

def UsageState.add_direct_accessed (s : UsageState) (mem : QualifiedInstId) : UsageState :=
  { s with accessed := (s.accessed.add_direct mem).add_direct mem }

def UsageState.add_transitive_accessed (s : UsageState) (mem : QualifiedInstId) : UsageState :=
  { s with accessed := (s.accessed.add_transitive mem).add_transitive mem }

def UsageState.add_direct_modified (s : UsageState) (mem : QualifiedInstId) : UsageState :=
  { s with modified := s.modified.add_direct mem, accessed := s.accessed.add_direct mem }

def UsageState.add_transitive_modified (s : UsageState) (mem : QualifiedInstId) : UsageState :=
  { s with modified := s.modified.add_transitive mem, accessed := s.accessed.add_transitive mem }

def UsageState.add_direct_assumed (s : UsageState) (mem : QualifiedInstId) : UsageState :=
  { s with assumed := s.assumed.add_direct mem, accessed := s.accessed.add_direct mem }

def UsageState.add_transitive_assumed (s : UsageState) (mem : QualifiedInstId) : UsageState :=
  { s with assumed := s.assumed.add_transitive mem, accessed := s.accessed.add_transitive mem }

def UsageState.add_direct_asserted (s : UsageState) (mem : QualifiedInstId) : UsageState :=
  { s with asserted := s.asserted.add_direct mem, accessed := s.accessed.add_direct mem }

def UsageState.add_transitive_asserted (s : UsageState) (mem : QualifiedInstId) : UsageState :=
  { s with asserted := s.asserted.add_transitive mem, accessed := s.accessed.add_transitive mem }

-- The `_iter` variants: the per-element loops of the macro, expressed by
-- their effect on the sets.

def UsageState.add_direct_accessed_iter (s : UsageState) (mems : MemSet) : UsageState :=
  { s with accessed := (s.accessed.add_direct_iter mems).add_direct_iter mems }

def UsageState.add_transitive_accessed_iter (s : UsageState) (mems : MemSet) : UsageState :=
  { s with accessed := (s.accessed.add_transitive_iter mems).add_transitive_iter mems }

def UsageState.add_direct_modified_iter (s : UsageState) (mems : MemSet) : UsageState :=
  { s with modified := s.modified.add_direct_iter mems,
           accessed := s.accessed.add_direct_iter mems }

def UsageState.add_transitive_modified_iter (s : UsageState) (mems : MemSet) : UsageState :=
  { s with modified := s.modified.add_transitive_iter mems,
           accessed := s.accessed.add_transitive_iter mems }

def UsageState.add_direct_assumed_iter (s : UsageState) (mems : MemSet) : UsageState :=
  { s with assumed := s.assumed.add_direct_iter mems,
           accessed := s.accessed.add_direct_iter mems }

def UsageState.add_transitive_assumed_iter (s : UsageState) (mems : MemSet) : UsageState :=
  { s with assumed := s.assumed.add_transitive_iter mems,
           accessed := s.accessed.add_transitive_iter mems }

def UsageState.add_direct_asserted_iter (s : UsageState) (mems : MemSet) : UsageState :=
  { s with asserted := s.asserted.add_direct_iter mems,
           accessed := s.accessed.add_direct_iter mems }

def UsageState.add_transitive_asserted_iter (s : UsageState) (mems : MemSet) : UsageState :=
  { s with asserted := s.asserted.add_transitive_iter mems,
           accessed := s.accessed.add_transitive_iter mems }

/-- usage_analysis.rs `UsageState::subsume_callee_as_direct`: the four
instantiated `all` sets of the callee folded into the direct sets. -/
def UsageState.subsume_callee_as_direct (s : UsageState) (callee : UsageState)
    (inst : List Ty) : UsageState :=
  (((s.add_direct_accessed_iter (callee.accessed.get_all_inst inst)).add_direct_modified_iter
      (callee.modified.get_all_inst inst)).add_direct_assumed_iter
      (callee.assumed.get_all_inst inst)).add_direct_asserted_iter
      (callee.asserted.get_all_inst inst)

/-- usage_analysis.rs `UsageState::subsume_callee_as_transitive`. -/
def UsageState.subsume_callee_as_transitive (s : UsageState) (callee : UsageState)
    (inst : List Ty) : UsageState :=
  (((s.add_transitive_accessed_iter (callee.accessed.get_all_inst inst)).add_transitive_modified_iter
      (callee.modified.get_all_inst inst)).add_transitive_assumed_iter
      (callee.assumed.get_all_inst inst)).add_transitive_asserted_iter
      (callee.asserted.get_all_inst inst)

/-- usage_analysis.rs `impl AbstractDomain for UsageState`: componentwise
join of the four records, Unchanged only when all four are unchanged. -/
def UsageState.join (self other : UsageState) : UsageState × JoinResult :=
  let ac := self.accessed.join other.accessed
  let mo := self.modified.join other.modified
  let asu := self.assumed.join other.assumed
  let ast := self.asserted.join other.asserted
  (⟨ac.1, mo.1, asu.1, ast.1⟩,
    match ac.2, mo.2, asu.2, ast.2 with
    | .Unchanged, .Unchanged, .Unchanged, .Unchanged => .Unchanged
    | _, _, _, _ => .Changed)

-- ==============================================================
-- The bytecode shapes matched by the transfer function (external
-- stackless_bytecode.rs, spec section 6).  Payloads the transfer function
-- never inspects are kept as opaque numbers.
-- ==============================================================

/-- stackless_bytecode.rs `BorrowNode`. -/
inductive BorrowNode where
  | GlobalRoot : QualifiedInstId → BorrowNode
  | LocalRoot : TempIndex → BorrowNode
  | Reference : TempIndex → BorrowNode
  | ReturnPlaceholder : Nat → BorrowNode

/-- stackless_bytecode.rs `PropKind`. -/
inductive PropKind where
  | Assert
  | Assume
  | Modifies

/-- stackless_bytecode.rs `Operation` (external): the operation tags the
transfer function matches on; `OtherOp` stands for the many remaining
variants, which the transfer function ignores uniformly. -/
inductive BcOperation where
  | Function : ModuleId → FunId → List Ty → BcOperation
  | OpaqueCallBegin : ModuleId → FunId → List Ty → BcOperation
  | OpaqueCallEnd : ModuleId → FunId → List Ty → BcOperation
  | MoveTo : ModuleId → StructId → List Ty → BcOperation
  | MoveFrom : ModuleId → StructId → List Ty → BcOperation
  | BorrowGlobal : ModuleId → StructId → List Ty → BcOperation
  | WriteBack : BorrowNode → Nat → BcOperation
  | Exists : ModuleId → StructId → List Ty → BcOperation
  | GetGlobal : ModuleId → StructId → List Ty → BcOperation
  | OtherOp : Nat → BcOperation

/-- stackless_bytecode.rs `Bytecode` (external): instruction shapes; the
payloads the usage analysis never reads (attribute ids, temps, labels,
constants) are opaque numbers. -/
inductive Bytecode where
  | Assign : Nat → TempIndex → TempIndex → Nat → Bytecode
  | Call : Nat → List TempIndex → BcOperation → List TempIndex → Option Nat → Bytecode
  | Ret : Nat → List TempIndex → Bytecode
  | Load : Nat → TempIndex → Nat → Bytecode
  | Branch : Nat → Nat → Nat → TempIndex → Bytecode
  | Jump : Nat → Nat → Bytecode
  | Label : Nat → Nat → Bytecode
  | Abort : Nat → TempIndex → Bytecode
  | Nop : Nat → Bytecode
  | SaveMem : Nat → MemoryLabel → QualifiedInstId → Bytecode
  | SaveSpecVar : Nat → MemoryLabel → QualifiedId → Bytecode
  | Prop' : Nat → PropKind → ExpData → Bytecode

/-- function_target_pipeline.rs `FunctionVariant` (external): the baseline
variant and the verification variants. -/
inductive FunctionVariant where
  | Baseline
  | Verification : Nat → FunctionVariant

/-- The collaborators of `MemoryUsageAnalysis`: the global environment, the
summary cache lookup (spec section 4.3: `None` when no summary is cached)
and the delegation query of the external verification analysis. -/
structure AnalysisCtx where
  env : GlobalEnv
  cache_get : QualifiedId → FunctionVariant → Option UsageState
  is_invariant_checking_delegated : QualifiedId → Bool

/-- The panics the transfer function can run into: a panic bubbling up from
`used_memory`, or its own `unreachable!` arm (source message: modifies
expressions are not expected in the function body). -/
inductive ExecPanic where
  | UsedMemory : UmPanic → ExecPanic
  | ModifiesInBody
  deriving DecidableEq

/-- usage_analysis.rs `MemoryUsageAnalysis::execute`: the transfer function
of the memory usage analysis over one bytecode.  Panics of the source are
embedded as `Except.error`. -/
def execute (ctx : AnalysisCtx) (state : UsageState) (code : Bytecode) :
    Except ExecPanic UsageState :=
  match code with
  | .Call _ _ oper _ _ =>
    match oper with
    | .Function mid fid inst | .OpaqueCallBegin mid fid inst | .OpaqueCallEnd mid fid inst =>
      let callee_id : QualifiedId := ⟨mid, fid⟩
      match ctx.cache_get callee_id .Baseline with
      | some summary =>
        if ctx.is_invariant_checking_delegated callee_id then
          .ok (state.subsume_callee_as_direct summary inst)
        else
          .ok (state.subsume_callee_as_transitive summary inst)
      | none => .ok state
    | .MoveTo mid sid inst | .MoveFrom mid sid inst | .BorrowGlobal mid sid inst =>
      .ok (state.add_direct_modified (mk_qualified_inst mid sid inst))
    | .WriteBack (.GlobalRoot mem) _ => .ok (state.add_direct_modified mem)
    | .Exists mid sid inst | .GetGlobal mid sid inst =>
      .ok (state.add_direct_accessed (mk_qualified_inst mid sid inst))
    | .WriteBack (.LocalRoot _) _ => .ok state
    | .WriteBack (.Reference _) _ => .ok state
    | .WriteBack (.ReturnPlaceholder _) _ => .ok state
    | .OtherOp _ => .ok state
  | .Prop' _ kind exp =>
    match kind with
    | .Assume =>
      match exp.used_memory ctx.env with
      | .ok mems => .ok (state.add_direct_assumed_iter (mems.image Prod.fst))
      | .error p => .error (.UsedMemory p)
    | .Assert =>
      match exp.used_memory ctx.env with
      | .ok mems => .ok (state.add_direct_asserted_iter (mems.image Prod.fst))
      | .error p => .error (.UsedMemory p)
    | .Modifies => .error .ModifiesInBody
  | .Assign _ _ _ _ => .ok state
  | .Ret _ _ => .ok state
  | .Load _ _ _ => .ok state
  | .Branch _ _ _ _ => .ok state
  | .Jump _ _ => .ok state
  | .Label _ _ => .ok state
  | .Abort _ _ => .ok state
  | .Nop _ => .ok state
  | .SaveMem _ _ _ => .ok state
  | .SaveSpecVar _ _ _ => .ok state

/-- The panics `compute_spec_usage` can run into: a panic bubbling up from
`used_memory`, or indexing the additional expressions of an update
condition that has none. -/
inductive SpecPanic where
  | UsedMemory : UmPanic → SpecPanic
  | UpdateWithoutArgument
  deriving DecidableEq

/-- usage_analysis.rs `compute_spec_usage`, lines 306-309: the used memory
of a condition (its primary expression extended by the additional
expressions). -/
def cond_used_memory (env : GlobalEnv) (cond : Condition) : Except UmPanic UsedMemorySet :=
  match cond.exp.used_memory env with
  | .error p => .error p
  | .ok um1 =>
    cond.additional_exps.foldl
      (fun acc e =>
        match acc with
        | .error p => .error p
        | .ok acc2 =>
          match e.used_memory env with
          | .error p => .error p
          | .ok um => .ok (acc2 ∪ um))
      (.ok um1)

/-- Whether a condition kind asserts (postconditions, abort conditions and
emits clauses) rather than assumes. -/
def ConditionKind.is_asserting : ConditionKind → Bool
  | .Ensures => true
  | .AbortsIf => true
  | .Emits => true
  | _ => false

/-- The `matches!(cond.kind, Update)` test of the source. -/
def ConditionKind.is_update : ConditionKind → Bool
  | .Update => true
  | _ => false

/-- The body of the per-condition loop of usage_analysis.rs
`compute_spec_usage`: asserting kinds feed `asserted.direct`, all other
kinds `assumed.direct`, and an update condition additionally feeds the
ghost memory target of its first additional expression into
`modified.direct` (an update condition without additional expression makes
the source panic on indexing, embedded as an error). -/
def compute_spec_usage_cond (ctx : AnalysisCtx) (state : UsageState) (cond : Condition) :
    Except SpecPanic UsageState :=
  match cond_used_memory ctx.env cond with
  | .error p => .error (.UsedMemory p)
  | .ok used_memory =>
    let state1 :=
      if cond.kind.is_asserting then
        state.add_direct_asserted_iter (used_memory.image Prod.fst)
      else
        state.add_direct_assumed_iter (used_memory.image Prod.fst)
    if cond.kind.is_update then
      match cond.additional_exps with
      | [] => .error .UpdateWithoutArgument
      | e0 :: _ =>
        match e0.extract_ghost_mem_access ctx.env with
        | some (mem, _, _) => .ok (state1.add_direct_modified mem)
        | none => .ok state1
    else .ok state1

/-- usage_analysis.rs `MemoryUsageAnalysis::compute_spec_usage`: fold the
declared specification conditions into the state. -/
def compute_spec_usage (ctx : AnalysisCtx) (spec : Spec) (state : UsageState) :
    Except SpecPanic UsageState :=
  spec.conditions.foldl
    (fun acc cond =>
      match acc with
      | .error p => .error p
      | .ok st => compute_spec_usage_cond ctx st cond)
    (.ok state)

-- ==============================================================
-- Lattice properties of the joins.
-- ==============================================================

theorem set_domain_join_val (a b : MemSet) : (set_domain_join a b).1 = a ∪ b := rfl

theorem set_domain_join_changed (a b : MemSet) :
    (set_domain_join a b).2 = .Changed ↔ ¬ b ⊆ a := by
  by_cases h : b ⊆ a <;> simp [set_domain_join, h]

theorem mu_join_val (a b : MemoryUsage) :
    (a.join b).1 = ⟨a.direct ∪ b.direct, a.transitive ∪ b.transitive, a.all ∪ b.all⟩ := rfl

theorem mu_join_flag (a b : MemoryUsage) :
    (a.join b).2 = .Changed ↔
      ¬ (b.direct ⊆ a.direct ∧ b.transitive ⊆ a.transitive ∧ b.all ⊆ a.all) := by
  simp only [MemoryUsage.join, set_domain_join]
  by_cases h1 : b.direct ⊆ a.direct <;> by_cases h2 : b.transitive ⊆ a.transitive <;>
    by_cases h3 : b.all ⊆ a.all <;> simp [h1, h2, h3]

theorem mu_join_val_eq_self (a b : MemoryUsage) :
    (a.join b).1 = a ↔
      b.direct ⊆ a.direct ∧ b.transitive ⊆ a.transitive ∧ b.all ⊆ a.all := by
  cases a
  simp [mu_join_val, MemoryUsage.mk.injEq, Finset.union_eq_left]

theorem us_join_val (a b : UsageState) :
    (a.join b).1 = ⟨(a.accessed.join b.accessed).1, (a.modified.join b.modified).1,
      (a.assumed.join b.assumed).1, (a.asserted.join b.asserted).1⟩ := rfl

theorem us_join_flag (a b : UsageState) :
    (a.join b).2 = .Changed ↔
      ¬ ((a.accessed.join b.accessed).2 = .Unchanged ∧ (a.modified.join b.modified).2 = .Unchanged ∧
         (a.assumed.join b.assumed).2 = .Unchanged ∧ (a.asserted.join b.asserted).2 = .Unchanged) := by
  simp only [UsageState.join]
  rcases hac : (a.accessed.join b.accessed).2 <;> rcases hmo : (a.modified.join b.modified).2 <;>
    rcases hasu : (a.assumed.join b.assumed).2 <;> rcases hast : (a.asserted.join b.asserted).2 <;>
      simp [hac, hmo, hasu, hast]

theorem mu_join_unchanged_iff (a b : MemoryUsage) :
    (a.join b).2 = .Unchanged ↔ (a.join b).1 = a := by
  have h1 := mu_join_flag a b
  have h2 := mu_join_val_eq_self a b
  rcases hflag : (a.join b).2 with _ | _
  · simp only [hflag] at h1
    have hp : b.direct ⊆ a.direct ∧ b.transitive ⊆ a.transitive ∧ b.all ⊆ a.all := by
      by_contra hq
      exact nomatch h1.mpr hq
    simp only [true_iff]
    exact h2.mpr hp
  · simp only [hflag] at h1
    constructor
    · intro h; cases h
    · intro hv
      exact absurd (h2.mp hv) (h1.mp trivial)

/-- C5. The joins of `MemoryUsage` and `UsageState` are commutative,
associative and idempotent on values, an idempotent join reports Unchanged,
every component is always joined (the value is the componentwise union
regardless of the reported flag), and Changed is reported exactly when at
least one component set gained an element (the joined value differs from
the original). -/
theorem join_lattice_laws_c5 :
    (∀ a b : MemoryUsage, (a.join b).1.direct = a.direct ∪ b.direct ∧
      (a.join b).1.transitive = a.transitive ∪ b.transitive ∧
      (a.join b).1.all = a.all ∪ b.all)
    ∧ (∀ a b : MemoryUsage, (a.join b).1 = (b.join a).1)
    ∧ (∀ a b c : MemoryUsage, (((a.join b).1).join c).1 = (a.join ((b.join c).1)).1)
    ∧ (∀ a : MemoryUsage, (a.join a).1 = a ∧ (a.join a).2 = .Unchanged)
    ∧ (∀ a b : MemoryUsage, (a.join b).2 = .Changed ↔ (a.join b).1 ≠ a)
    ∧ (∀ a b : UsageState, (a.join b).1.accessed = (a.accessed.join b.accessed).1 ∧
      (a.join b).1.modified = (a.modified.join b.modified).1 ∧
      (a.join b).1.assumed = (a.assumed.join b.assumed).1 ∧
      (a.join b).1.asserted = (a.asserted.join b.asserted).1)
    ∧ (∀ a b : UsageState, (a.join b).1 = (b.join a).1)
    ∧ (∀ a b c : UsageState, (((a.join b).1).join c).1 = (a.join ((b.join c).1)).1)
    ∧ (∀ a : UsageState, (a.join a).1 = a ∧ (a.join a).2 = .Unchanged)
    ∧ (∀ a b : UsageState, (a.join b).2 = .Changed ↔ (a.join b).1 ≠ a) := by
  have mucomm : ∀ a b : MemoryUsage, (a.join b).1 = (b.join a).1 := by
    intro a b
    simp [mu_join_val, Finset.union_comm]
  have muassoc : ∀ a b c : MemoryUsage, (((a.join b).1).join c).1 = (a.join ((b.join c).1)).1 := by
    intro a b c
    simp [mu_join_val, Finset.union_assoc]
  have muidem : ∀ a : MemoryUsage, (a.join a).1 = a ∧ (a.join a).2 = .Unchanged := by
    intro a
    constructor
    · cases a; simp [mu_join_val]
    · rw [mu_join_unchanged_iff]
      cases a; simp [mu_join_val]
  have muchanged : ∀ a b : MemoryUsage, (a.join b).2 = .Changed ↔ (a.join b).1 ≠ a := by
    intro a b
    rw [mu_join_flag, Ne, mu_join_val_eq_self]
  have usidem : ∀ a : UsageState, (a.join a).1 = a ∧ (a.join a).2 = .Unchanged := by
    intro a
    constructor
    · cases a
      simp only [us_join_val]
      congr 1 <;> exact (muidem _).1
    · simp only [UsageState.join, (muidem _).2]
  refine ⟨?_, mucomm, muassoc, muidem, muchanged, ?_, ?_, ?_, usidem, ?_⟩
  · intro a b
    simp [mu_join_val]
  · intro a b
    simp [us_join_val]
  · intro a b
    simp only [us_join_val]
    exact UsageState.ext (mucomm _ _) (mucomm _ _) (mucomm _ _) (mucomm _ _)
  · intro a b c
    simp only [us_join_val]
    exact UsageState.ext (muassoc _ _ _) (muassoc _ _ _) (muassoc _ _ _) (muassoc _ _ _)
  · intro a b
    rw [us_join_flag]
    have hval : (a.join b).1 = a ↔
        ((a.accessed.join b.accessed).1 = a.accessed ∧ (a.modified.join b.modified).1 = a.modified ∧
         (a.assumed.join b.assumed).1 = a.assumed ∧ (a.asserted.join b.asserted).1 = a.asserted) := by
      cases a
      simp [us_join_val, UsageState.mk.injEq]
    rw [Ne, hval]
    simp only [mu_join_unchanged_iff]

-- ==============================================================
-- Structural invariants of the usage domain.
-- ==============================================================

/-- The documented invariant of `MemoryUsage`: `all` is the union of
`direct` and `transitive`. -/
def MemoryUsage.wf (m : MemoryUsage) : Prop := m.all = m.direct ∪ m.transitive

/-- The documented invariant of `UsageState`: `accessed` covers the other
three records. -/
def UsageState.covers (s : UsageState) : Prop :=
  s.modified.all ⊆ s.accessed.all ∧ s.assumed.all ⊆ s.accessed.all ∧
    s.asserted.all ⊆ s.accessed.all

theorem mu_wf_add_direct (m : MemoryUsage) (mem : QualifiedInstId) (h : m.wf) :
    (m.add_direct mem).wf := by
  simp only [MemoryUsage.wf, MemoryUsage.add_direct] at h ⊢
  rw [h, Finset.insert_union]

theorem mu_wf_add_transitive (m : MemoryUsage) (mem : QualifiedInstId) (h : m.wf) :
    (m.add_transitive mem).wf := by
  simp only [MemoryUsage.wf, MemoryUsage.add_transitive] at h ⊢
  rw [h, Finset.union_insert]

theorem mu_wf_add_direct_iter (m : MemoryUsage) (mems : MemSet) (h : m.wf) :
    (m.add_direct_iter mems).wf := by
  simp only [MemoryUsage.wf, MemoryUsage.add_direct_iter] at h ⊢
  rw [h, Finset.union_right_comm]

theorem mu_wf_add_transitive_iter (m : MemoryUsage) (mems : MemSet) (h : m.wf) :
    (m.add_transitive_iter mems).wf := by
  simp only [MemoryUsage.wf, MemoryUsage.add_transitive_iter] at h ⊢
  rw [h, Finset.union_assoc]

theorem mu_wf_join (a b : MemoryUsage) (ha : a.wf) (hb : b.wf) : ((a.join b).1).wf := by
  simp only [MemoryUsage.wf, mu_join_val] at ha hb ⊢
  rw [ha, hb]
  ac_rfl

theorem us_covers_single_inserts (s : UsageState) (mem : QualifiedInstId) (h : s.covers) :
    (s.add_direct_accessed mem).covers ∧ (s.add_transitive_accessed mem).covers ∧
    (s.add_direct_modified mem).covers ∧ (s.add_transitive_modified mem).covers ∧
    (s.add_direct_assumed mem).covers ∧ (s.add_transitive_assumed mem).covers ∧
    (s.add_direct_asserted mem).covers ∧ (s.add_transitive_asserted mem).covers := by
  obtain ⟨h1, h2, h3⟩ := h
  have hsub : ∀ t u : MemSet, t ⊆ u → t ⊆ insert mem u := by
    intro t u ht
    exact ht.trans (Finset.subset_insert mem u)
  have hins : ∀ t u : MemSet, t ⊆ u → insert mem t ⊆ insert mem u := by
    intro t u ht
    exact Finset.insert_subset_insert mem ht
  refine ⟨⟨?_, ?_, ?_⟩, ⟨?_, ?_, ?_⟩, ⟨?_, ?_, ?_⟩, ⟨?_, ?_, ?_⟩, ⟨?_, ?_, ?_⟩,
    ⟨?_, ?_, ?_⟩, ⟨?_, ?_, ?_⟩, ⟨?_, ?_, ?_⟩⟩ <;>
    simp only [UsageState.add_direct_accessed, UsageState.add_transitive_accessed,
      UsageState.add_direct_modified, UsageState.add_transitive_modified,
      UsageState.add_direct_assumed, UsageState.add_transitive_assumed,
      UsageState.add_direct_asserted, UsageState.add_transitive_asserted,
      MemoryUsage.add_direct, MemoryUsage.add_transitive, Finset.insert_idem] <;>
    first
      | exact hsub _ _ h1 | exact hsub _ _ h2 | exact hsub _ _ h3
      | exact hins _ _ h1 | exact hins _ _ h2 | exact hins _ _ h3

theorem us_covers_iter_inserts (s : UsageState) (mems : MemSet) (h : s.covers) :
    (s.add_direct_accessed_iter mems).covers ∧ (s.add_transitive_accessed_iter mems).covers ∧
    (s.add_direct_modified_iter mems).covers ∧ (s.add_transitive_modified_iter mems).covers ∧
    (s.add_direct_assumed_iter mems).covers ∧ (s.add_transitive_assumed_iter mems).covers ∧
    (s.add_direct_asserted_iter mems).covers ∧ (s.add_transitive_asserted_iter mems).covers := by
  obtain ⟨h1, h2, h3⟩ := h
  have hsub : ∀ t u : MemSet, t ⊆ u → t ⊆ u ∪ mems := by
    intro t u ht
    exact ht.trans Finset.subset_union_left
  have huni : ∀ t u : MemSet, t ⊆ u → t ∪ mems ⊆ u ∪ mems := by
    intro t u ht
    exact Finset.union_subset_union_left ht
  refine ⟨⟨?_, ?_, ?_⟩, ⟨?_, ?_, ?_⟩, ⟨?_, ?_, ?_⟩, ⟨?_, ?_, ?_⟩, ⟨?_, ?_, ?_⟩,
    ⟨?_, ?_, ?_⟩, ⟨?_, ?_, ?_⟩, ⟨?_, ?_, ?_⟩⟩ <;>
    simp only [UsageState.add_direct_accessed_iter, UsageState.add_transitive_accessed_iter,
      UsageState.add_direct_modified_iter, UsageState.add_transitive_modified_iter,
      UsageState.add_direct_assumed_iter, UsageState.add_transitive_assumed_iter,
      UsageState.add_direct_asserted_iter, UsageState.add_transitive_asserted_iter,
      MemoryUsage.add_direct_iter, MemoryUsage.add_transitive_iter, Finset.union_assoc,
      Finset.union_self] <;>
    first
      | exact hsub _ _ h1 | exact hsub _ _ h2 | exact hsub _ _ h3
      | exact huni _ _ h1 | exact huni _ _ h2 | exact huni _ _ h3

theorem us_covers_join (a b : UsageState) (ha : a.covers) (hb : b.covers) :
    ((a.join b).1).covers := by
  obtain ⟨ha1, ha2, ha3⟩ := ha
  obtain ⟨hb1, hb2, hb3⟩ := hb
  refine ⟨?_, ?_, ?_⟩ <;> simp only [us_join_val, mu_join_val] <;>
    first
      | exact Finset.union_subset_union ha1 hb1
      | exact Finset.union_subset_union ha2 hb2
      | exact Finset.union_subset_union ha3 hb3

theorem us_covers_subsume_direct (s callee : UsageState) (inst : List Ty) (h : s.covers) :
    (s.subsume_callee_as_direct callee inst).covers := by
  rw [UsageState.subsume_callee_as_direct]
  exact (us_covers_iter_inserts _ _
    ((us_covers_iter_inserts _ _
      ((us_covers_iter_inserts _ _
        ((us_covers_iter_inserts _ _ h).1)).2.2.1)).2.2.2.2.1)).2.2.2.2.2.2.1

theorem us_covers_subsume_transitive (s callee : UsageState) (inst : List Ty) (h : s.covers) :
    (s.subsume_callee_as_transitive callee inst).covers := by
  rw [UsageState.subsume_callee_as_transitive]
  exact (us_covers_iter_inserts _ _
    ((us_covers_iter_inserts _ _
      ((us_covers_iter_inserts _ _
        ((us_covers_iter_inserts _ _ h).2.1)).2.2.2.1)).2.2.2.2.2.1)).2.2.2.2.2.2.2

theorem us_covers_execute (ctx : AnalysisCtx) (s : UsageState) (code : Bytecode)
    (s2 : UsageState) (h : s.covers) (hex : execute ctx s code = .ok s2) : s2.covers := by
  cases code with
  | Call attrs dsts oper srcs aa =>
    cases oper with
    | Function mid fid inst | OpaqueCallBegin mid fid inst | OpaqueCallEnd mid fid inst =>
      rw [execute] at hex
      rcases hc : ctx.cache_get ⟨mid, fid⟩ .Baseline with _ | summary <;> rw [hc] at hex
      · cases hex
        exact h
      · by_cases hd : ctx.is_invariant_checking_delegated ⟨mid, fid⟩ <;> simp only [hd] at hex
        · simp only [if_true] at hex
          cases hex
          exact us_covers_subsume_direct _ _ _ h
        · simp only [if_false, Bool.false_eq_true] at hex
          cases hex
          exact us_covers_subsume_transitive _ _ _ h
    | MoveTo mid sid inst | MoveFrom mid sid inst | BorrowGlobal mid sid inst =>
      rw [execute] at hex
      cases hex
      exact (us_covers_single_inserts _ _ h).2.2.1
    | WriteBack node edge =>
      cases node with
      | GlobalRoot mem =>
        rw [execute] at hex
        cases hex
        exact (us_covers_single_inserts _ _ h).2.2.1
      | LocalRoot t => rw [execute] at hex; cases hex; exact h
      | Reference t => rw [execute] at hex; cases hex; exact h
      | ReturnPlaceholder t => rw [execute] at hex; cases hex; exact h
    | Exists mid sid inst | GetGlobal mid sid inst =>
      rw [execute] at hex
      cases hex
      exact (us_covers_single_inserts _ _ h).1
    | OtherOp t => rw [execute] at hex; cases hex; exact h
  | Prop' attrs kind exp =>
    cases kind with
    | Assume =>
      rw [execute] at hex
      rcases hum : exp.used_memory ctx.env with p | mems <;> rw [hum] at hex
      · cases hex
      · cases hex
        exact (us_covers_iter_inserts _ _ h).2.2.2.2.1
    | Assert =>
      rw [execute] at hex
      rcases hum : exp.used_memory ctx.env with p | mems <;> rw [hum] at hex
      · cases hex
      · cases hex
        exact (us_covers_iter_inserts _ _ h).2.2.2.2.2.2.1
    | Modifies => rw [execute] at hex; cases hex
  | Assign a b c d => rw [execute] at hex; cases hex; exact h
  | Ret a b => rw [execute] at hex; cases hex; exact h
  | Load a b c => rw [execute] at hex; cases hex; exact h
  | Branch a b c d => rw [execute] at hex; cases hex; exact h
  | Jump a b => rw [execute] at hex; cases hex; exact h
  | Label a b => rw [execute] at hex; cases hex; exact h
  | Abort a b => rw [execute] at hex; cases hex; exact h
  | Nop a => rw [execute] at hex; cases hex; exact h
  | SaveMem a b c => rw [execute] at hex; cases hex; exact h
  | SaveSpecVar a b c => rw [execute] at hex; cases hex; exact h

theorem us_covers_spec_cond (ctx : AnalysisCtx) (s : UsageState) (cond : Condition)
    (s2 : UsageState) (h : s.covers) (hex : compute_spec_usage_cond ctx s cond = .ok s2) :
    s2.covers := by
  rw [compute_spec_usage_cond] at hex
  rcases hum : cond_used_memory ctx.env cond with p | mems <;> rw [hum] at hex
  · cases hex
  · simp only [] at hex
    have h1 : (if cond.kind.is_asserting then
        s.add_direct_asserted_iter (mems.image Prod.fst)
      else s.add_direct_assumed_iter (mems.image Prod.fst)).covers := by
      cases hk : cond.kind.is_asserting <;> simp only [hk, if_true, if_false, Bool.false_eq_true]
      · exact (us_covers_iter_inserts _ _ h).2.2.2.2.1
      · exact (us_covers_iter_inserts _ _ h).2.2.2.2.2.2.1
    cases hu : cond.kind.is_update <;> simp only [hu, if_true, if_false, Bool.false_eq_true] at hex
    · cases hex
      exact h1
    · rcases hadd : cond.additional_exps with _ | ⟨e0, rest⟩ <;> rw [hadd] at hex
      · cases hex
      · rcases hg : e0.extract_ghost_mem_access ctx.env with _ | ⟨mem, fld, addr⟩ <;>
          simp only [hg] at hex
        · cases hex
          exact h1
        · cases hex
          exact (us_covers_single_inserts _ _ h1).2.2.1

/-- C4. The invariant `all = direct ∪ transitive` of `MemoryUsage` is
preserved by `add_direct`, `add_transitive` (single and iterated) and by
`join` of two values satisfying it; every `UsageState` insertion into the
modified, assumed or asserted record performs the same insertion into the
accessed record; consequently `accessed.all ⊇ modified.all ∪ assumed.all ∪
asserted.all` (the `covers` predicate, equivalent to that superset) is
preserved by every operation of the analysis: all inserters, the join, the
callee subsumption, the transfer function and the declared-spec folding. -/
theorem usage_invariants_c4 :
    (∀ (s : UsageState), s.covers ↔
      s.modified.all ∪ s.assumed.all ∪ s.asserted.all ⊆ s.accessed.all)
    ∧ (∀ (m : MemoryUsage) (mem : QualifiedInstId), m.wf → (m.add_direct mem).wf)
    ∧ (∀ (m : MemoryUsage) (mem : QualifiedInstId), m.wf → (m.add_transitive mem).wf)
    ∧ (∀ (m : MemoryUsage) (mems : MemSet), m.wf → (m.add_direct_iter mems).wf)
    ∧ (∀ (m : MemoryUsage) (mems : MemSet), m.wf → (m.add_transitive_iter mems).wf)
    ∧ (∀ a b : MemoryUsage, a.wf → b.wf → ((a.join b).1).wf)
    ∧ (∀ (s : UsageState) (mem : QualifiedInstId),
        (s.add_direct_modified mem).accessed = s.accessed.add_direct mem
        ∧ (s.add_direct_assumed mem).accessed = s.accessed.add_direct mem
        ∧ (s.add_direct_asserted mem).accessed = s.accessed.add_direct mem
        ∧ (s.add_transitive_modified mem).accessed = s.accessed.add_transitive mem
        ∧ (s.add_transitive_assumed mem).accessed = s.accessed.add_transitive mem
        ∧ (s.add_transitive_asserted mem).accessed = s.accessed.add_transitive mem)
    ∧ (∀ (s : UsageState) (mem : QualifiedInstId), s.covers →
        (s.add_direct_accessed mem).covers ∧ (s.add_transitive_accessed mem).covers ∧
        (s.add_direct_modified mem).covers ∧ (s.add_transitive_modified mem).covers ∧
        (s.add_direct_assumed mem).covers ∧ (s.add_transitive_assumed mem).covers ∧
        (s.add_direct_asserted mem).covers ∧ (s.add_transitive_asserted mem).covers)
    ∧ (∀ (s : UsageState) (mems : MemSet), s.covers →
        (s.add_direct_accessed_iter mems).covers ∧ (s.add_transitive_accessed_iter mems).covers ∧
        (s.add_direct_modified_iter mems).covers ∧ (s.add_transitive_modified_iter mems).covers ∧
        (s.add_direct_assumed_iter mems).covers ∧ (s.add_transitive_assumed_iter mems).covers ∧
        (s.add_direct_asserted_iter mems).covers ∧ (s.add_transitive_asserted_iter mems).covers)
    ∧ (∀ a b : UsageState, a.covers → b.covers → ((a.join b).1).covers)
    ∧ (∀ (s callee : UsageState) (inst : List Ty), s.covers →
        (s.subsume_callee_as_direct callee inst).covers ∧
        (s.subsume_callee_as_transitive callee inst).covers)
    ∧ (∀ (ctx : AnalysisCtx) (s : UsageState) (code : Bytecode) (s2 : UsageState),
        s.covers → execute ctx s code = .ok s2 → s2.covers)
    ∧ (∀ (ctx : AnalysisCtx) (s : UsageState) (cond : Condition) (s2 : UsageState),
        s.covers → compute_spec_usage_cond ctx s cond = .ok s2 → s2.covers) := by
  refine ⟨?_, mu_wf_add_direct, mu_wf_add_transitive, mu_wf_add_direct_iter,
    mu_wf_add_transitive_iter, mu_wf_join, ?_, us_covers_single_inserts,
    us_covers_iter_inserts, us_covers_join,
    fun s callee inst h => ⟨us_covers_subsume_direct s callee inst h,
      us_covers_subsume_transitive s callee inst h⟩,
    us_covers_execute, us_covers_spec_cond⟩
  · intro s
    rw [UsageState.covers, Finset.union_subset_iff, Finset.union_subset_iff]
    tauto
  · intro s mem
    exact ⟨rfl, rfl, rfl, rfl, rfl, rfl⟩

/-- Witness for C4 at concrete inputs. -/
theorem usage_invariants_c4_witness :
    (MemoryUsage.empty.add_direct ⟨0, 0, []⟩).wf ∧
    (UsageState.empty.add_direct_modified ⟨0, 0, []⟩).covers := by
  refine ⟨usage_invariants_c4.2.1 MemoryUsage.empty ⟨0, 0, []⟩ ?_,
    (usage_invariants_c4.2.2.2.2.2.2.2.1 UsageState.empty ⟨0, 0, []⟩ ?_).2.2.1⟩
  · show (∅ : MemSet) = ∅ ∪ ∅
    simp
  · exact ⟨Finset.empty_subset _, Finset.empty_subset _, Finset.empty_subset _⟩

-- ==============================================================
-- Set-level effect of callee subsumption.
-- ==============================================================

theorem subsume_direct_sets (s callee : UsageState) (inst : List Ty) :
    (s.subsume_callee_as_direct callee inst).modified.direct
        = s.modified.direct ∪ callee.modified.get_all_inst inst
    ∧ (s.subsume_callee_as_direct callee inst).assumed.direct
        = s.assumed.direct ∪ callee.assumed.get_all_inst inst
    ∧ (s.subsume_callee_as_direct callee inst).asserted.direct
        = s.asserted.direct ∪ callee.asserted.get_all_inst inst
    ∧ s.accessed.direct ∪ callee.accessed.get_all_inst inst
        ⊆ (s.subsume_callee_as_direct callee inst).accessed.direct := by
  refine ⟨rfl, rfl, rfl, ?_⟩
  simp only [UsageState.subsume_callee_as_direct, UsageState.add_direct_accessed_iter,
    UsageState.add_direct_modified_iter, UsageState.add_direct_assumed_iter,
    UsageState.add_direct_asserted_iter, MemoryUsage.add_direct_iter]
  intro x hx
  simp only [Finset.mem_union] at hx ⊢
  tauto

theorem subsume_transitive_sets (s callee : UsageState) (inst : List Ty) :
    (s.subsume_callee_as_transitive callee inst).modified.transitive
        = s.modified.transitive ∪ callee.modified.get_all_inst inst
    ∧ (s.subsume_callee_as_transitive callee inst).assumed.transitive
        = s.assumed.transitive ∪ callee.assumed.get_all_inst inst
    ∧ (s.subsume_callee_as_transitive callee inst).asserted.transitive
        = s.asserted.transitive ∪ callee.asserted.get_all_inst inst
    ∧ s.accessed.transitive ∪ callee.accessed.get_all_inst inst
        ⊆ (s.subsume_callee_as_transitive callee inst).accessed.transitive := by
  refine ⟨rfl, rfl, rfl, ?_⟩
  simp only [UsageState.subsume_callee_as_transitive, UsageState.add_transitive_accessed_iter,
    UsageState.add_transitive_modified_iter, UsageState.add_transitive_assumed_iter,
    UsageState.add_transitive_asserted_iter, MemoryUsage.add_transitive_iter]
  intro x hx
  simp only [Finset.mem_union] at hx ⊢
  tauto

/-- C1. A call bytecode whose operation is a function call (plain or the
opaque begin/end markers): when the callee has a cached baseline summary
and its invariant checking is delegated, all four instantiated `all` sets
of the summary are added to the corresponding direct sets of the state;
when it is not delegated, to the corresponding transitive sets; when no
summary is cached, the state is returned unchanged. -/
theorem usage_call_transfer_c1 :
    ∀ (ctx : AnalysisCtx) (s : UsageState) (attrs : Nat) (dsts srcs : List TempIndex)
      (aa : Option Nat) (mid fid : Nat) (inst : List Ty) (oper : BcOperation),
    (oper = .Function mid fid inst ∨ oper = .OpaqueCallBegin mid fid inst ∨
      oper = .OpaqueCallEnd mid fid inst) →
    ((∀ summary, ctx.cache_get ⟨mid, fid⟩ .Baseline = some summary →
      ((ctx.is_invariant_checking_delegated ⟨mid, fid⟩ = true →
        ∃ s2, execute ctx s (.Call attrs dsts oper srcs aa) = .ok s2 ∧
          s2.modified.direct = s.modified.direct ∪ summary.modified.get_all_inst inst ∧
          s2.assumed.direct = s.assumed.direct ∪ summary.assumed.get_all_inst inst ∧
          s2.asserted.direct = s.asserted.direct ∪ summary.asserted.get_all_inst inst ∧
          s.accessed.direct ∪ summary.accessed.get_all_inst inst ⊆ s2.accessed.direct)
      ∧ (ctx.is_invariant_checking_delegated ⟨mid, fid⟩ = false →
        ∃ s2, execute ctx s (.Call attrs dsts oper srcs aa) = .ok s2 ∧
          s2.modified.transitive = s.modified.transitive ∪ summary.modified.get_all_inst inst ∧
          s2.assumed.transitive = s.assumed.transitive ∪ summary.assumed.get_all_inst inst ∧
          s2.asserted.transitive = s.asserted.transitive ∪ summary.asserted.get_all_inst inst ∧
          s.accessed.transitive ∪ summary.accessed.get_all_inst inst ⊆ s2.accessed.transitive)))
    ∧ (ctx.cache_get ⟨mid, fid⟩ .Baseline = none →
        execute ctx s (.Call attrs dsts oper srcs aa) = .ok s)) := by
  intro ctx s attrs dsts srcs aa mid fid inst oper hop
  have hmain : ∀ oper2,
      (oper2 = BcOperation.Function mid fid inst ∨ oper2 = .OpaqueCallBegin mid fid inst ∨
        oper2 = .OpaqueCallEnd mid fid inst) →
      execute ctx s (.Call attrs dsts oper2 srcs aa) =
        (match ctx.cache_get ⟨mid, fid⟩ .Baseline with
        | some summary =>
          if ctx.is_invariant_checking_delegated ⟨mid, fid⟩ then
            .ok (s.subsume_callee_as_direct summary inst)
          else
            .ok (s.subsume_callee_as_transitive summary inst)
        | none => .ok s) := by
    intro oper2 hop2
    rcases hop2 with h | h | h <;> subst h <;> rw [execute]
  refine ⟨?_, ?_⟩
  · intro summary hsum
    constructor
    · intro hdel
      refine ⟨s.subsume_callee_as_direct summary inst, ?_, (subsume_direct_sets s summary inst).1,
        (subsume_direct_sets s summary inst).2.1, (subsume_direct_sets s summary inst).2.2.1,
        (subsume_direct_sets s summary inst).2.2.2⟩
      rw [hmain oper hop, hsum, hdel]
      simp
    · intro hdel
      refine ⟨s.subsume_callee_as_transitive summary inst, ?_,
        (subsume_transitive_sets s summary inst).1, (subsume_transitive_sets s summary inst).2.1,
        (subsume_transitive_sets s summary inst).2.2.1,
        (subsume_transitive_sets s summary inst).2.2.2⟩
      rw [hmain oper hop, hsum, hdel]
      simp
  · intro hnone
    rw [hmain oper hop, hnone]

-- Shared concrete collaborators for the witnesses.

def env0 : GlobalEnv := ⟨fun _ => .Primitive 0, fun _ => [], fun _ _ => [], fun _ => ""⟩

def ctx_none : AnalysisCtx := ⟨env0, fun _ _ => none, fun _ => false⟩

/-- Witness for C1: with an empty cache, a call bytecode leaves the state
unchanged. -/
theorem usage_call_transfer_c1_witness :
    execute ctx_none UsageState.empty (.Call 0 [] (.Function 1 2 []) [] none) =
      .ok UsageState.empty :=
  (usage_call_transfer_c1 ctx_none UsageState.empty 0 [] [] none 1 2 []
    (.Function 1 2 []) (Or.inl rfl)).2 rfl

/-- C3. The per-instruction effects of the transfer function: move_to /
move_from / borrow_global insert the instantiated struct into
`modified.direct`; a write-back to a global root inserts that memory into
`modified.direct`; exists / get_global insert the instantiated struct into
`accessed.direct`; an assume (resp. assert) property inserts the used
memory of its expression into `assumed.direct` (resp. `asserted.direct`).
The records the rule does not name are left unchanged. -/
theorem transfer_effects_c3 :
    (∀ (ctx : AnalysisCtx) (s : UsageState) (attrs : Nat) (dsts srcs : List TempIndex)
      (aa : Option Nat) (mid sid : Nat) (inst : List Ty) (oper : BcOperation),
      (oper = .MoveTo mid sid inst ∨ oper = .MoveFrom mid sid inst ∨
        oper = .BorrowGlobal mid sid inst) →
      ∃ s2, execute ctx s (.Call attrs dsts oper srcs aa) = .ok s2 ∧
        s2.modified.direct = insert (mk_qualified_inst mid sid inst) s.modified.direct ∧
        s2.accessed.direct = insert (mk_qualified_inst mid sid inst) s.accessed.direct ∧
        s2.assumed = s.assumed ∧ s2.asserted = s.asserted)
    ∧ (∀ (ctx : AnalysisCtx) (s : UsageState) (attrs : Nat) (dsts srcs : List TempIndex)
      (aa : Option Nat) (mem : QualifiedInstId) (edge : Nat),
      ∃ s2, execute ctx s (.Call attrs dsts (.WriteBack (.GlobalRoot mem) edge) srcs aa) = .ok s2 ∧
        s2.modified.direct = insert mem s.modified.direct ∧
        s2.accessed.direct = insert mem s.accessed.direct ∧
        s2.assumed = s.assumed ∧ s2.asserted = s.asserted)
    ∧ (∀ (ctx : AnalysisCtx) (s : UsageState) (attrs : Nat) (dsts srcs : List TempIndex)
      (aa : Option Nat) (mid sid : Nat) (inst : List Ty) (oper : BcOperation),
      (oper = .Exists mid sid inst ∨ oper = .GetGlobal mid sid inst) →
      ∃ s2, execute ctx s (.Call attrs dsts oper srcs aa) = .ok s2 ∧
        s2.accessed.direct = insert (mk_qualified_inst mid sid inst) s.accessed.direct ∧
        s2.modified = s.modified ∧ s2.assumed = s.assumed ∧ s2.asserted = s.asserted)
    ∧ (∀ (ctx : AnalysisCtx) (s : UsageState) (attrs : Nat) (exp : ExpData)
      (mems : UsedMemorySet), exp.used_memory ctx.env = .ok mems →
      ∃ s2, execute ctx s (.Prop' attrs .Assume exp) = .ok s2 ∧
        s2.assumed.direct = s.assumed.direct ∪ mems.image Prod.fst ∧
        s2.accessed.direct = s.accessed.direct ∪ mems.image Prod.fst ∧
        s2.modified = s.modified ∧ s2.asserted = s.asserted)
    ∧ (∀ (ctx : AnalysisCtx) (s : UsageState) (attrs : Nat) (exp : ExpData)
      (mems : UsedMemorySet), exp.used_memory ctx.env = .ok mems →
      ∃ s2, execute ctx s (.Prop' attrs .Assert exp) = .ok s2 ∧
        s2.asserted.direct = s.asserted.direct ∪ mems.image Prod.fst ∧
        s2.accessed.direct = s.accessed.direct ∪ mems.image Prod.fst ∧
        s2.modified = s.modified ∧ s2.assumed = s.assumed) := by
  refine ⟨?_, ?_, ?_, ?_, ?_⟩
  · intro ctx s attrs dsts srcs aa mid sid inst oper hop
    refine ⟨s.add_direct_modified (mk_qualified_inst mid sid inst), ?_, rfl, rfl, rfl, rfl⟩
    rcases hop with h | h | h <;> subst h <;> rw [execute]
  · intro ctx s attrs dsts srcs aa mem edge
    exact ⟨s.add_direct_modified mem, by rw [execute], rfl, rfl, rfl, rfl⟩
  · intro ctx s attrs dsts srcs aa mid sid inst oper hop
    refine ⟨s.add_direct_accessed (mk_qualified_inst mid sid inst), ?_, ?_, rfl, rfl, rfl⟩
    · rcases hop with h | h <;> subst h <;> rw [execute]
    · simp [UsageState.add_direct_accessed, MemoryUsage.add_direct]
  · intro ctx s attrs exp mems hum
    refine ⟨s.add_direct_assumed_iter (mems.image Prod.fst), ?_, rfl, rfl, rfl, rfl⟩
    rw [execute, hum]
  · intro ctx s attrs exp mems hum
    refine ⟨s.add_direct_asserted_iter (mems.image Prod.fst), ?_, rfl, rfl, rfl, rfl⟩
    rw [execute, hum]

/-- Witness for C3: a move_to bytecode inserts its memory into
`modified.direct` of the empty state. -/
theorem transfer_effects_c3_witness :
    ∃ s2, execute ctx_none UsageState.empty (.Call 0 [] (.MoveTo 1 2 []) [] none) = .ok s2 ∧
      s2.modified.direct = insert (mk_qualified_inst 1 2 []) UsageState.empty.modified.direct ∧
      s2.accessed.direct = insert (mk_qualified_inst 1 2 []) UsageState.empty.accessed.direct ∧
      s2.assumed = UsageState.empty.assumed ∧ s2.asserted = UsageState.empty.asserted :=
  transfer_effects_c3.1 ctx_none UsageState.empty 0 [] [] none 1 2 [] (.MoveTo 1 2 [])
    (Or.inl rfl)

/-- The bytecodes the usage analysis does not react to: everything except a
call carrying a function call, a global-memory effect or a global-root
write-back, and except the property pseudo-instructions. -/
def untouched_by_usage : Bytecode → Bool
  | .Call _ _ oper _ _ =>
    match oper with
    | .Function _ _ _ => false
    | .OpaqueCallBegin _ _ _ => false
    | .OpaqueCallEnd _ _ _ => false
    | .MoveTo _ _ _ => false
    | .MoveFrom _ _ _ => false
    | .BorrowGlobal _ _ _ => false
    | .WriteBack (.GlobalRoot _) _ => false
    | .WriteBack _ _ => true
    | .OtherOp _ => true
    | .Exists _ _ _ => false
    | .GetGlobal _ _ _ => false
  | .Prop' _ _ _ => false
  | _ => true

/-- C10. Any bytecode outside the shapes the transfer function matches on
leaves the usage state entirely unchanged. -/
theorem usage_frame_c10 :
    ∀ (ctx : AnalysisCtx) (s : UsageState) (code : Bytecode),
    untouched_by_usage code = true → execute ctx s code = .ok s := by
  intro ctx s code hun
  cases code with
  | Call attrs dsts oper srcs aa =>
    cases oper with
    | Function mid fid inst => simp [untouched_by_usage] at hun
    | OpaqueCallBegin mid fid inst => simp [untouched_by_usage] at hun
    | OpaqueCallEnd mid fid inst => simp [untouched_by_usage] at hun
    | MoveTo mid sid inst => simp [untouched_by_usage] at hun
    | MoveFrom mid sid inst => simp [untouched_by_usage] at hun
    | BorrowGlobal mid sid inst => simp [untouched_by_usage] at hun
    | WriteBack node edge =>
      cases node with
      | GlobalRoot mem => simp [untouched_by_usage] at hun
      | LocalRoot t => rw [execute]
      | Reference t => rw [execute]
      | ReturnPlaceholder t => rw [execute]
    | Exists mid sid inst => simp [untouched_by_usage] at hun
    | GetGlobal mid sid inst => simp [untouched_by_usage] at hun
    | OtherOp t => rw [execute]
  | Prop' attrs kind exp => simp [untouched_by_usage] at hun
  | Assign a b c d => rw [execute]
  | Ret a b => rw [execute]
  | Load a b c => rw [execute]
  | Branch a b c d => rw [execute]
  | Jump a b => rw [execute]
  | Label a b => rw [execute]
  | Abort a b => rw [execute]
  | Nop a => rw [execute]
  | SaveMem a b c => rw [execute]
  | SaveSpecVar a b c => rw [execute]

/-- Witness for C10: a nop bytecode leaves the state unchanged. -/
theorem usage_frame_c10_witness :
    execute ctx_none UsageState.empty (.Nop 0) = .ok UsageState.empty :=
  usage_frame_c10 ctx_none UsageState.empty (.Nop 0) rfl

/-- C8. A property bytecode of the modifies kind hits the `unreachable!`
arm of the transfer function (embedded as the `ModifiesInBody` panic) for
every state; any bytecode that is not a modifies property never produces
that panic. -/
theorem modifies_panic_c8 :
    (∀ (ctx : AnalysisCtx) (s : UsageState) (attrs : Nat) (exp : ExpData),
      execute ctx s (.Prop' attrs .Modifies exp) = .error .ModifiesInBody)
    ∧ (∀ (ctx : AnalysisCtx) (s : UsageState) (code : Bytecode),
      (∀ (attrs : Nat) (exp : ExpData), code ≠ .Prop' attrs .Modifies exp) →
      execute ctx s code ≠ .error .ModifiesInBody) := by
  constructor
  · intro ctx s attrs exp
    rw [execute]
  · intro ctx s code hne
    cases code with
    | Call attrs dsts oper srcs aa =>
      cases oper with
      | Function mid fid inst | OpaqueCallBegin mid fid inst | OpaqueCallEnd mid fid inst =>
        rw [execute]
        rcases hc : ctx.cache_get ⟨mid, fid⟩ .Baseline with _ | summary <;>
          simp only [hc]
        · simp
        · by_cases hd : ctx.is_invariant_checking_delegated ⟨mid, fid⟩ <;> simp [hd]
      | MoveTo mid sid inst | MoveFrom mid sid inst | BorrowGlobal mid sid inst =>
        rw [execute]; simp
      | WriteBack node edge =>
        cases node <;> rw [execute] <;> simp
      | Exists mid sid inst | GetGlobal mid sid inst => rw [execute]; simp
      | OtherOp t => rw [execute]; simp
    | Prop' attrs kind exp =>
      cases kind with
      | Assume =>
        rw [execute]
        rcases hum : exp.used_memory ctx.env with p | mems <;> simp [hum]
      | Assert =>
        rw [execute]
        rcases hum : exp.used_memory ctx.env with p | mems <;> simp [hum]
      | Modifies => exact absurd rfl (hne attrs exp)
    | Assign a b c d => rw [execute]; simp
    | Ret a b => rw [execute]; simp
    | Load a b c => rw [execute]; simp
    | Branch a b c d => rw [execute]; simp
    | Jump a b => rw [execute]; simp
    | Label a b => rw [execute]; simp
    | Abort a b => rw [execute]; simp
    | Nop a => rw [execute]; simp
    | SaveMem a b c => rw [execute]; simp
    | SaveSpecVar a b c => rw [execute]; simp

/-- Witness for C8: the panic at a concrete modifies property, and the
non-panic of a concrete nop. -/
theorem modifies_panic_c8_witness :
    execute ctx_none UsageState.empty (.Prop' 0 .Modifies (.Value 0 (.Bool true)))
        = .error .ModifiesInBody
    ∧ execute ctx_none UsageState.empty (.Nop 0) ≠ .error .ModifiesInBody :=
  ⟨modifies_panic_c8.1 ctx_none UsageState.empty 0 (.Value 0 (.Bool true)),
    modifies_panic_c8.2 ctx_none UsageState.empty (.Nop 0) (fun _ _ h => nomatch h)⟩

-- ==============================================================
-- Folding the declared specification (C2).
-- ==============================================================

theorem is_asserting_iff (k : ConditionKind) :
    k.is_asserting = true ↔ (k = .Ensures ∨ k = .AbortsIf ∨ k = .Emits) := by
  cases k <;> simp [ConditionKind.is_asserting]

theorem is_update_iff (k : ConditionKind) : k.is_update = true ↔ k = .Update := by
  cases k <;> simp [ConditionKind.is_update]

theorem spec_fold_error (ctx : AnalysisCtx) (conds : List Condition) (p : SpecPanic) :
    List.foldl
      (fun (acc : Except SpecPanic UsageState) (cond : Condition) =>
        match acc with
        | Except.error q => Except.error q
        | Except.ok st => compute_spec_usage_cond ctx st cond)
      (Except.error p) conds = Except.error p := by
  induction conds with
  | nil => rfl
  | cons c rest ih => exact ih

/-- C2. The declared-spec folding processes the conditions in order; one
condition contributes the used memory of its primary and additional
expressions to `asserted.direct` when its kind is ensures, aborts_if or
emits, and to `assumed.direct` for every other kind; an update condition
additionally inserts the ghost memory extracted from its first additional
expression into `modified.direct`. -/
theorem spec_usage_c2 :
    (∀ (ctx : AnalysisCtx) (cond : Condition) (conds : List Condition) (s : UsageState),
      compute_spec_usage ctx ⟨cond :: conds⟩ s =
        match compute_spec_usage_cond ctx s cond with
        | .error p => .error p
        | .ok st => compute_spec_usage ctx ⟨conds⟩ st)
    ∧ (∀ (ctx : AnalysisCtx) (s : UsageState) (cond : Condition) (mems : UsedMemorySet),
      cond_used_memory ctx.env cond = .ok mems →
      ((cond.kind = .Ensures ∨ cond.kind = .AbortsIf ∨ cond.kind = .Emits →
        ∃ s2, compute_spec_usage_cond ctx s cond = .ok s2 ∧
          s2.asserted.direct = s.asserted.direct ∪ mems.image Prod.fst ∧
          s2.accessed.direct = s.accessed.direct ∪ mems.image Prod.fst ∧
          s2.assumed = s.assumed ∧ s2.modified = s.modified)
      ∧ (¬ (cond.kind = .Ensures ∨ cond.kind = .AbortsIf ∨ cond.kind = .Emits) →
          cond.kind ≠ .Update →
        ∃ s2, compute_spec_usage_cond ctx s cond = .ok s2 ∧
          s2.assumed.direct = s.assumed.direct ∪ mems.image Prod.fst ∧
          s2.accessed.direct = s.accessed.direct ∪ mems.image Prod.fst ∧
          s2.asserted = s.asserted ∧ s2.modified = s.modified)
      ∧ (cond.kind = .Update →
          ∀ (e0 : ExpData) (rest : List ExpData) (mem : QualifiedInstId) (fld : FieldId)
            (addr : ExpData),
          cond.additional_exps = e0 :: rest →
          e0.extract_ghost_mem_access ctx.env = some (mem, fld, addr) →
        ∃ s2, compute_spec_usage_cond ctx s cond = .ok s2 ∧
          s2.assumed.direct = s.assumed.direct ∪ mems.image Prod.fst ∧
          s2.modified.direct = insert mem (s.modified.direct) ∧
          s2.asserted = s.asserted))) := by
  constructor
  · intro ctx cond conds s
    rw [compute_spec_usage]
    rw [List.foldl_cons]
    dsimp only
    rcases hc : compute_spec_usage_cond ctx s cond with p | st
    · dsimp only
      exact spec_fold_error ctx conds p
    · dsimp only
      rw [compute_spec_usage]
  · intro ctx s cond mems hum
    refine ⟨?_, ?_, ?_⟩
    · intro hk
      have hass : cond.kind.is_asserting = true := (is_asserting_iff _).mpr hk
      have hupd : cond.kind.is_update = false := by
        rcases hk with h | h | h <;> rw [h] <;> rfl
      refine ⟨s.add_direct_asserted_iter (mems.image Prod.fst), ?_, rfl, rfl, rfl, rfl⟩
      rw [compute_spec_usage_cond, hum]
      simp only [hass, hupd, if_true, if_false, Bool.false_eq_true]
    · intro hk hupd0
      have hass : cond.kind.is_asserting = false := by
        rcases h : cond.kind.is_asserting with _ | _
        · rfl
        · exact absurd ((is_asserting_iff _).mp h) hk
      have hupd : cond.kind.is_update = false := by
        rcases h : cond.kind.is_update with _ | _
        · rfl
        · exact absurd ((is_update_iff _).mp h) hupd0
      refine ⟨s.add_direct_assumed_iter (mems.image Prod.fst), ?_, rfl, rfl, rfl, rfl⟩
      rw [compute_spec_usage_cond, hum]
      simp only [hass, hupd, if_true, if_false, Bool.false_eq_true]
    · intro hk e0 rest mem fld addr hadd hg
      have hass : cond.kind.is_asserting = false := by rw [hk]; rfl
      have hupd : cond.kind.is_update = true := by rw [hk]; rfl
      refine ⟨(s.add_direct_assumed_iter (mems.image Prod.fst)).add_direct_modified mem,
        ?_, rfl, rfl, rfl⟩
      rw [compute_spec_usage_cond, hum]
      simp only [hass, hupd, if_true, if_false, Bool.false_eq_true, hadd, hg]

/-- Witness for C2: a requires condition on a constant expression lands in
`assumed.direct`. -/
theorem spec_usage_c2_witness :
    ∃ s2, compute_spec_usage_cond ctx_none UsageState.empty
        ⟨.Requires, .Value 0 (.Bool true), []⟩ = .ok s2 ∧
      s2.assumed.direct = UsageState.empty.assumed.direct ∪
        Finset.image Prod.fst (∅ : UsedMemorySet) ∧
      s2.accessed.direct = UsageState.empty.accessed.direct ∪
        Finset.image Prod.fst (∅ : UsedMemorySet) ∧
      s2.asserted = UsageState.empty.asserted ∧ s2.modified = UsageState.empty.modified := by
  have hum : cond_used_memory ctx_none.env ⟨.Requires, .Value 0 (.Bool true), []⟩ =
      .ok (∅ : UsedMemorySet) := by
    rw [cond_used_memory]
    have : ExpData.used_memory ctx_none.env (.Value 0 (.Bool true)) = .ok ∅ := by
      rw [ExpData.used_memory, ExpData.visit, visit_pre_post]
      rfl
    rw [this]
    rfl
  exact (spec_usage_c2.2 ctx_none UsageState.empty ⟨.Requires, .Value 0 (.Bool true), []⟩
    ∅ hum).2.1 (by simp) (by simp)

-- ==============================================================
-- Rewrite identity (C9).
-- ==============================================================

mutual
theorem rewrite_exp_triv_id (e : ExpData) :
    rewrite_exp (fun _ => .decline) (fun _ => none) e = e := by
  rw [rewrite_exp]
  exact rewrite_exp_descent_triv_id e

theorem rewrite_exp_descent_triv_id (e : ExpData) :
    rewrite_exp_descent (fun _ => .decline) (fun _ => none) e = e := by
  cases e with
  | Invalid id => rw [rewrite_exp_descent]; rfl
  | Value id v => rw [rewrite_exp_descent]; rfl
  | LocalVar id s => rw [rewrite_exp_descent]; rfl
  | Temporary id t => rw [rewrite_exp_descent]; rfl
  | Call id op args =>
    rw [rewrite_exp_descent, rwList_triv_id args]
    rfl
  | Invoke id target args =>
    rw [rewrite_exp_descent, rewrite_exp_triv_id target, rwList_triv_id args]
    rfl
  | Lambda id ds body =>
    rw [rewrite_exp_descent, rwDecls_triv_id ds, rewrite_exp_triv_id body]
    rfl
  | Quant id k ranges triggers cond body =>
    rw [rewrite_exp_descent, rwRanges_triv_id ranges, rwTriggers_triv_id triggers,
      rwOpt_triv_id cond, rewrite_exp_triv_id body]
    rfl
  | Block id ds body =>
    rw [rewrite_exp_descent, rwDecls_triv_id ds, rewrite_exp_triv_id body]
    rfl
  | IfElse id c t e2 =>
    rw [rewrite_exp_descent, rewrite_exp_triv_id c, rewrite_exp_triv_id t,
      rewrite_exp_triv_id e2]
    rfl

theorem rwList_triv_id (es : List ExpData) :
    rwList (fun _ => .decline) (fun _ => none) es = es := by
  cases es with
  | nil => rw [rwList]
  | cons e rest => rw [rwList, rewrite_exp_triv_id e, rwList_triv_id rest]

theorem rwDecls_triv_id (ds : List LocalVarDecl) :
    rwDecls (fun _ => .decline) (fun _ => none) ds = ds := by
  cases ds with
  | nil => rw [rwDecls]
  | cons d rest =>
    cases d with
    | mk id s ob =>
      cases ob with
      | some b => rw [rwDecls, rewrite_exp_triv_id b, rwDecls_triv_id rest]; rfl
      | none => rw [rwDecls, rwDecls_triv_id rest]; rfl

theorem rwRanges_triv_id (rs : List (LocalVarDecl × ExpData)) :
    rwRanges (fun _ => .decline) (fun _ => none) rs = rs := by
  cases rs with
  | nil => rw [rwRanges]
  | cons p rest =>
    obtain ⟨d, range⟩ := p
    cases d with
    | mk id s ob =>
      cases ob with
      | some b =>
        rw [rwRanges, rewrite_exp_triv_id b, rewrite_exp_triv_id range, rwRanges_triv_id rest]
        rfl
      | none =>
        rw [rwRanges, rewrite_exp_triv_id range, rwRanges_triv_id rest]
        rfl

theorem rwTriggers_triv_id (ts : List (List ExpData)) :
    rwTriggers (fun _ => .decline) (fun _ => none) ts = ts := by
  cases ts with
  | nil => rw [rwTriggers]
  | cons t rest => rw [rwTriggers, rwList_triv_id t, rwTriggers_triv_id rest]

theorem rwOpt_triv_id (oe : Option ExpData) :
    rwOpt (fun _ => .decline) (fun _ => none) oe = oe := by
  cases oe with
  | some e => rw [rwOpt, rewrite_exp_triv_id e]
  | none => rw [rwOpt]
end

/-- C9. Rewriting with an expression rewriter that always declines and a
node-identifier rewriter that always reports no change returns the
expression unchanged, for every entry point of the rewrite family. -/
theorem rewrite_identity_c9 :
    ∀ e : ExpData,
      e.rewrite_exp_and_node_id (fun _ => .decline) (fun _ => none) = e
      ∧ e.rewrite (fun _ => .decline) = e
      ∧ e.rewrite_node_id (fun _ => none) = e := by
  intro e
  exact ⟨rewrite_exp_triv_id e, rewrite_exp_triv_id e, rewrite_exp_triv_id e⟩

-- ==============================================================
-- Purity (C7): a structural conjunction over all visited nodes, and the
-- characterisation of the boolean visitor fold.
-- ==============================================================

mutual
/-- `allB p e`: `p` holds at every node `visit` touches in `e` (children
first, in traversal order). -/
def allB (p : ExpData → Bool) : ExpData → Bool
  | .Invalid id => p (.Invalid id)
  | .Value id v => p (.Value id v)
  | .LocalVar id s => p (.LocalVar id s)
  | .Temporary id t => p (.Temporary id t)
  | .Call id op args => allBList p args && p (.Call id op args)
  | .Invoke id target args => (allB p target && allBList p args) && p (.Invoke id target args)
  | .Lambda id ds body => allB p body && p (.Lambda id ds body)
  | .Quant id k ranges triggers cond body =>
      (((allBRanges p ranges && allBTriggers p triggers) && allBOpt p cond) && allB p body) &&
        p (.Quant id k ranges triggers cond body)
  | .Block id ds body => (allBDecls p ds && allB p body) && p (.Block id ds body)
  | .IfElse id c t e2 => ((allB p c && allB p t) && allB p e2) && p (.IfElse id c t e2)

def allBList (p : ExpData → Bool) : List ExpData → Bool
  | [] => true
  | e :: rest => allB p e && allBList p rest

def allBRanges (p : ExpData → Bool) : List (LocalVarDecl × ExpData) → Bool
  | [] => true
  | (.mk _ _ (some b), r) :: rest => (allB p b && allB p r) && allBRanges p rest
  | (.mk _ _ none, r) :: rest => allB p r && allBRanges p rest

def allBTriggers (p : ExpData → Bool) : List (List ExpData) → Bool
  | [] => true
  | t :: rest => allBList p t && allBTriggers p rest

def allBOpt (p : ExpData → Bool) : Option ExpData → Bool
  | some e => allB p e
  | none => true

def allBDecls (p : ExpData → Bool) : List LocalVarDecl → Bool
  | [] => true
  | .mk _ _ (some b) :: rest => allB p b && allBDecls p rest
  | .mk _ _ none :: rest => allBDecls p rest
end

mutual
theorem vpp_and (p : ExpData → Bool) (e : ExpData) (b : Bool) :
    visit_pre_post (fun up x t => if up then t && p x else t) e b = (b && allB p e) := by
  cases e with
  | Invalid id => rw [visit_pre_post, allB]; simp
  | Value id v => rw [visit_pre_post, allB]; simp
  | LocalVar id s => rw [visit_pre_post, allB]; simp
  | Temporary id t => rw [visit_pre_post, allB]; simp
  | Call id op args =>
    rw [visit_pre_post, allB]
    rw [vppList_and]
    simp [Bool.and_assoc]
  | Invoke id target args =>
    rw [visit_pre_post, allB]
    rw [vpp_and, vppList_and]
    simp [Bool.and_assoc]
  | Lambda id ds body =>
    rw [visit_pre_post, allB]
    rw [vpp_and]
    simp [Bool.and_assoc]
  | Quant id k ranges triggers cond body =>
    rw [visit_pre_post, allB]
    rw [vppRanges_and, vppTriggers_and, vppOpt_and, vpp_and]
    simp [Bool.and_assoc]
  | Block id ds body =>
    rw [visit_pre_post, allB]
    rw [vppDecls_and, vpp_and]
    simp [Bool.and_assoc]
  | IfElse id c t e2 =>
    rw [visit_pre_post, allB]
    rw [vpp_and, vpp_and, vpp_and]
    simp [Bool.and_assoc]

theorem vppList_and (p : ExpData → Bool) (es : List ExpData) (b : Bool) :
    vppList (fun up x t => if up then t && p x else t) es b = (b && allBList p es) := by
  cases es with
  | nil => rw [vppList, allBList]; simp
  | cons e rest =>
    rw [vppList, allBList, vpp_and, vppList_and]
    simp [Bool.and_assoc]

theorem vppRanges_and (p : ExpData → Bool) (rs : List (LocalVarDecl × ExpData)) (b : Bool) :
    vppRanges (fun up x t => if up then t && p x else t) rs b = (b && allBRanges p rs) := by
  cases rs with
  | nil => rw [vppRanges, allBRanges]; simp
  | cons pr rest =>
    obtain ⟨d, r⟩ := pr
    cases d with
    | mk id s ob =>
      cases ob with
      | some bexp =>
        rw [vppRanges, allBRanges]
        rw [vpp_and, vpp_and, vppRanges_and]
        simp [Bool.and_assoc]
      | none =>
        rw [vppRanges, allBRanges]
        rw [vpp_and, vppRanges_and]
        simp [Bool.and_assoc]

theorem vppTriggers_and (p : ExpData → Bool) (ts : List (List ExpData)) (b : Bool) :
    vppTriggers (fun up x t => if up then t && p x else t) ts b = (b && allBTriggers p ts) := by
  cases ts with
  | nil => rw [vppTriggers, allBTriggers]; simp
  | cons t rest =>
    rw [vppTriggers, allBTriggers, vppList_and, vppTriggers_and]
    simp [Bool.and_assoc]

theorem vppOpt_and (p : ExpData → Bool) (oe : Option ExpData) (b : Bool) :
    vppOpt (fun up x t => if up then t && p x else t) oe b = (b && allBOpt p oe) := by
  cases oe with
  | some e => rw [vppOpt, allBOpt, vpp_and]
  | none => rw [vppOpt, allBOpt]; simp

theorem vppDecls_and (p : ExpData → Bool) (ds : List LocalVarDecl) (b : Bool) :
    vppDecls (fun up x t => if up then t && p x else t) ds b = (b && allBDecls p ds) := by
  cases ds with
  | nil => rw [vppDecls, allBDecls]; simp
  | cons d rest =>
    cases d with
    | mk id s ob =>
      cases ob with
      | some bexp =>
        rw [vppDecls, allBDecls, vpp_and, vppDecls_and]
        simp [Bool.and_assoc]
      | none => rw [vppDecls, allBDecls, vppDecls_and]
end

mutual
theorem allB_mono (p q : ExpData → Bool) (hpq : ∀ x, p x = true → q x = true)
    (e : ExpData) (h : allB p e = true) : allB q e = true := by
  cases e with
  | Invalid id => rw [allB] at h ⊢; exact hpq _ h
  | Value id v => rw [allB] at h ⊢; exact hpq _ h
  | LocalVar id s => rw [allB] at h ⊢; exact hpq _ h
  | Temporary id t => rw [allB] at h ⊢; exact hpq _ h
  | Call id op args =>
    rw [allB, Bool.and_eq_true] at h ⊢
    exact ⟨allBList_mono p q hpq args h.1, hpq _ h.2⟩
  | Invoke id target args =>
    rw [allB, Bool.and_eq_true, Bool.and_eq_true] at h ⊢
    exact ⟨⟨allB_mono p q hpq target h.1.1, allBList_mono p q hpq args h.1.2⟩, hpq _ h.2⟩
  | Lambda id ds body =>
    rw [allB, Bool.and_eq_true] at h ⊢
    exact ⟨allB_mono p q hpq body h.1, hpq _ h.2⟩
  | Quant id k ranges triggers cond body =>
    rw [allB] at h ⊢
    simp only [Bool.and_eq_true] at h ⊢
    exact ⟨⟨⟨⟨allBRanges_mono p q hpq ranges h.1.1.1.1,
      allBTriggers_mono p q hpq triggers h.1.1.1.2⟩,
      allBOpt_mono p q hpq cond h.1.1.2⟩, allB_mono p q hpq body h.1.2⟩, hpq _ h.2⟩
  | Block id ds body =>
    rw [allB] at h ⊢
    simp only [Bool.and_eq_true] at h ⊢
    exact ⟨⟨allBDecls_mono p q hpq ds h.1.1, allB_mono p q hpq body h.1.2⟩, hpq _ h.2⟩
  | IfElse id c t e2 =>
    rw [allB] at h ⊢
    simp only [Bool.and_eq_true] at h ⊢
    exact ⟨⟨⟨allB_mono p q hpq c h.1.1.1, allB_mono p q hpq t h.1.1.2⟩,
      allB_mono p q hpq e2 h.1.2⟩, hpq _ h.2⟩

theorem allBList_mono (p q : ExpData → Bool) (hpq : ∀ x, p x = true → q x = true)
    (es : List ExpData) (h : allBList p es = true) : allBList q es = true := by
  cases es with
  | nil => rw [allBList]
  | cons e rest =>
    rw [allBList, Bool.and_eq_true] at h ⊢
    exact ⟨allB_mono p q hpq e h.1, allBList_mono p q hpq rest h.2⟩

theorem allBRanges_mono (p q : ExpData → Bool) (hpq : ∀ x, p x = true → q x = true)
    (rs : List (LocalVarDecl × ExpData)) (h : allBRanges p rs = true) :
    allBRanges q rs = true := by
  cases rs with
  | nil => rw [allBRanges]
  | cons pr rest =>
    obtain ⟨d, r⟩ := pr
    cases d with
    | mk id s ob =>
      cases ob with
      | some b =>
        rw [allBRanges] at h ⊢
        simp only [Bool.and_eq_true] at h ⊢
        exact ⟨⟨allB_mono p q hpq b h.1.1, allB_mono p q hpq r h.1.2⟩,
          allBRanges_mono p q hpq rest h.2⟩
      | none =>
        rw [allBRanges] at h ⊢
        simp only [Bool.and_eq_true] at h ⊢
        exact ⟨allB_mono p q hpq r h.1, allBRanges_mono p q hpq rest h.2⟩

theorem allBTriggers_mono (p q : ExpData → Bool) (hpq : ∀ x, p x = true → q x = true)
    (ts : List (List ExpData)) (h : allBTriggers p ts = true) : allBTriggers q ts = true := by
  cases ts with
  | nil => rw [allBTriggers]
  | cons t rest =>
    rw [allBTriggers, Bool.and_eq_true] at h ⊢
    exact ⟨allBList_mono p q hpq t h.1, allBTriggers_mono p q hpq rest h.2⟩

theorem allBOpt_mono (p q : ExpData → Bool) (hpq : ∀ x, p x = true → q x = true)
    (oe : Option ExpData) (h : allBOpt p oe = true) : allBOpt q oe = true := by
  cases oe with
  | some e => rw [allBOpt] at h ⊢; exact allB_mono p q hpq e h
  | none => rw [allBOpt]

theorem allBDecls_mono (p q : ExpData → Bool) (hpq : ∀ x, p x = true → q x = true)
    (ds : List LocalVarDecl) (h : allBDecls p ds = true) : allBDecls q ds = true := by
  cases ds with
  | nil => rw [allBDecls]
  | cons d rest =>
    cases d with
    | mk id s ob =>
      cases ob with
      | some b =>
        rw [allBDecls, Bool.and_eq_true] at h ⊢
        exact ⟨allB_mono p q hpq b h.1, allBDecls_mono p q hpq rest h.2⟩
      | none =>
        rw [allBDecls] at h ⊢
        exact allBDecls_mono p q hpq rest h
end

/-- The node-local purity test the `is_pure` visitor applies (the negation
of the impurity shapes). -/
def pureNode (env : GlobalEnv) (e : ExpData) : Bool :=
  match e with
  | .Temporary id _ => !(env.get_node_type id).is_mutable_reference
  | .Call _ (.Exists _) _ => false
  | .Call _ (.Global _) _ => false
  | .Call _ (.Function mid fid _) _ => (env.spec_fun_used_memory mid fid).isEmpty
  | _ => true

/-- The impurity shapes named by the specification: a mutable-reference
temporary, a direct exists/global operation, or a call to a specification
function with non-empty declared used memory. -/
def impureNode (env : GlobalEnv) (e : ExpData) : Bool :=
  match e with
  | .Temporary id _ => (env.get_node_type id).is_mutable_reference
  | .Call _ (.Exists _) _ => true
  | .Call _ (.Global _) _ => true
  | .Call _ (.Function mid fid _) _ => !(env.spec_fun_used_memory mid fid).isEmpty
  | _ => false

/-- `anyB p e`: some node of `e` satisfies `p` (the expression contains a
node of that shape). -/
def anyB (p : ExpData → Bool) (e : ExpData) : Bool :=
  !allB (fun x => !(p x)) e

theorem ipStep_eq (env : GlobalEnv) (e : ExpData) (b : Bool) :
    ipStep env e b = (b && pureNode env e) := by
  cases e with
  | Temporary id t =>
    rcases h : (env.get_node_type id).is_mutable_reference with _ | _ <;>
      simp [ipStep, pureNode, h]
  | Call id op args =>
    cases op <;> simp [ipStep, pureNode]
    case Function mid fid labels =>
      rcases h : env.spec_fun_used_memory mid fid with _ | ⟨q, rest⟩ <;>
        simp [List.isEmpty, h]
  | Invalid id => simp [ipStep, pureNode]
  | Value id v => simp [ipStep, pureNode]
  | LocalVar id s => simp [ipStep, pureNode]
  | Invoke id target args => simp [ipStep, pureNode]
  | Lambda id ds body => simp [ipStep, pureNode]
  | Quant id k r tr cond body => simp [ipStep, pureNode]
  | Block id ds body => simp [ipStep, pureNode]
  | IfElse id c t e2 => simp [ipStep, pureNode]

theorem pureNode_eq_not_impure (env : GlobalEnv) (e : ExpData) :
    pureNode env e = !impureNode env e := by
  cases e with
  | Temporary id t => simp [pureNode, impureNode]
  | Call id op args => cases op <;> simp [pureNode, impureNode]
  | Invalid id => simp [pureNode, impureNode]
  | Value id v => simp [pureNode, impureNode]
  | LocalVar id s => simp [pureNode, impureNode]
  | Invoke id target args => simp [pureNode, impureNode]
  | Lambda id ds body => simp [pureNode, impureNode]
  | Quant id k r tr cond body => simp [pureNode, impureNode]
  | Block id ds body => simp [pureNode, impureNode]
  | IfElse id c t e2 => simp [pureNode, impureNode]

theorem is_pure_eq_allB (env : GlobalEnv) (e : ExpData) :
    e.is_pure env = allB (pureNode env) e := by
  rw [ExpData.is_pure, ExpData.visit]
  have hf : (fun (up : Bool) (x : ExpData) (t : Bool) => if up then ipStep env x t else t)
      = (fun (up : Bool) x t => if up then t && pureNode env x else t) := by
    funext up x t
    rw [ipStep_eq]
  rw [hf, vpp_and]
  simp

/-- The arithmetic / logical operator tags. -/
def arith_op : Operation → Bool
  | .Add => true | .Sub => true | .Mul => true | .Mod => true | .Div => true
  | .BitOr => true | .BitAnd => true | .Xor => true | .Shl => true | .Shr => true
  | .Not => true
  | _ => false

/-- Expressions built only from values, local variables and arithmetic
operators. -/
def arith_node : ExpData → Bool
  | .Value _ _ => true
  | .LocalVar _ _ => true
  | .Call _ op _ => arith_op op
  | _ => false

/-- C7. `is_pure` returns false exactly when the expression contains a
mutable-reference temporary, a direct exists/global operation, or a call
to a specification function with non-empty declared used memory; and an
expression built only from arithmetic operators, values and local
variables is pure. -/
theorem is_pure_c7 :
    (∀ (env : GlobalEnv) (e : ExpData),
      e.is_pure env = false ↔ anyB (impureNode env) e = true)
    ∧ (∀ (env : GlobalEnv) (e : ExpData),
      allB arith_node e = true → e.is_pure env = true) := by
  constructor
  · intro env e
    rw [is_pure_eq_allB, anyB]
    have hf : (fun x => !(impureNode env x)) = pureNode env := by
      funext x
      rw [pureNode_eq_not_impure]
    rw [hf]
    cases allB (pureNode env) e <;> simp
  · intro env e h
    rw [is_pure_eq_allB]
    refine allB_mono arith_node (pureNode env) ?_ e h
    intro x
    cases x with
    | Call id op args =>
      cases op <;> simp [arith_node, arith_op, pureNode]
    | Value id v => intro _; simp [pureNode]
    | LocalVar id s => intro _; simp [pureNode]
    | Invalid id => intro hx; simp [arith_node] at hx
    | Temporary id t => intro hx; simp [arith_node] at hx
    | Invoke id target args => intro hx; simp [arith_node] at hx
    | Lambda id ds body => intro hx; simp [arith_node] at hx
    | Quant id k r tr cond body => intro hx; simp [arith_node] at hx
    | Block id ds body => intro hx; simp [arith_node] at hx
    | IfElse id c t e2 => intro hx; simp [arith_node] at hx

/-- Witness for C7: a small arithmetic expression is pure. -/
theorem is_pure_c7_witness :
    ExpData.is_pure env0 (.Call 0 .Add [.Value 1 (.Number 1), .LocalVar 2 7]) = true := by
  refine is_pure_c7.2 env0 _ ?_
  rw [allB, allBList, allB, allBList, allB, allBList]
  rfl

-- ==============================================================
-- Free variables (C6): a compositional specification of the stateful
-- free_vars visitor, and its correctness proof.
-- ==============================================================

/-- Select, from a stream of (name, type) occurrences, the entries whose
name was not seen before, in order of first occurrence; returns the
selected entries and the final seen set. -/
def sel : List (Symb × Ty) → List Symb → List (Symb × Ty) × List Symb
  | [], seen => ([], seen)
  | (s, t) :: rest, seen =>
    if s ∈ seen then sel rest seen
    else
      ((s, t) :: (sel rest (s :: seen)).1, (sel rest (s :: seen)).2)

theorem sel_append (xs ys : List (Symb × Ty)) (seen : List Symb) :
    sel (xs ++ ys) seen =
      ((sel xs seen).1 ++ (sel ys (sel xs seen).2).1, (sel ys (sel xs seen).2).2) := by
  induction xs generalizing seen with
  | nil => simp [sel]
  | cons p rest ih =>
    obtain ⟨s, t⟩ := p
    by_cases h : s ∈ seen <;> simp [sel, h, ih]

theorem sel_seen_mem (xs : List (Symb × Ty)) (seen : List Symb) (x : Symb) :
    x ∈ (sel xs seen).2 ↔ x ∈ seen ∨ x ∈ (sel xs seen).1.map Prod.fst := by
  induction xs generalizing seen with
  | nil => simp [sel]
  | cons p rest ih =>
    obtain ⟨s, t⟩ := p
    by_cases h : s ∈ seen
    · rw [sel, if_pos h, ih]
    · rw [sel, if_neg h]
      simp only [List.map_cons, List.mem_cons, ih, List.mem_cons]
      tauto

theorem sel_congr (xs : List (Symb × Ty)) (seen1 seen2 : List Symb)
    (h : ∀ x, x ∈ seen1 ↔ x ∈ seen2) :
    (sel xs seen1).1 = (sel xs seen2).1 ∧
      (∀ x, x ∈ (sel xs seen1).2 ↔ x ∈ (sel xs seen2).2) := by
  induction xs generalizing seen1 seen2 with
  | nil => exact ⟨rfl, h⟩
  | cons p rest ih =>
    obtain ⟨s, t⟩ := p
    by_cases hs : s ∈ seen1
    · have hs2 : s ∈ seen2 := (h s).mp hs
      rw [sel, if_pos hs, sel, if_pos hs2]
      exact ih seen1 seen2 h
    · have hs2 : s ∉ seen2 := fun hc => hs ((h s).mpr hc)
      rw [sel, if_neg hs, sel, if_neg hs2]
      have hstep : ∀ x, x ∈ s :: seen1 ↔ x ∈ s :: seen2 := by
        intro x
        simp only [List.mem_cons, h x]
      obtain ⟨h1, h2⟩ := ih (s :: seen1) (s :: seen2) hstep
      exact ⟨by rw [h1], h2⟩

theorem sel_mem_sub (xs : List (Symb × Ty)) (seen : List Symb) :
    ∀ p ∈ (sel xs seen).1, p ∈ xs := by
  induction xs generalizing seen with
  | nil => simp [sel]
  | cons q rest ih =>
    obtain ⟨s, t⟩ := q
    by_cases h : s ∈ seen
    · rw [sel, if_pos h]
      intro p hp
      exact List.mem_cons_of_mem _ (ih seen p hp)
    · rw [sel, if_neg h]
      intro p hp
      rcases List.mem_cons.mp hp with h1 | h1
      · rw [h1]; exact List.mem_cons_self _ _
      · exact List.mem_cons_of_mem _ (ih (s :: seen) p h1)

theorem sel_nodup (xs : List (Symb × Ty)) (seen : List Symb) :
    ((sel xs seen).1.map Prod.fst).Nodup ∧
      ∀ x ∈ (sel xs seen).1.map Prod.fst, x ∉ seen := by
  induction xs generalizing seen with
  | nil => simp [sel]
  | cons p rest ih
  =>
    obtain ⟨s, t⟩ := p
    by_cases h : s ∈ seen
    · rw [sel, if_pos h]
      exact ih seen
    · rw [sel, if_neg h]
      obtain ⟨ihn, ihm⟩ := ih (s :: seen)
      refine ⟨?_, ?_⟩
      · simp only [List.map_cons, List.nodup_cons]
        refine ⟨fun hc => ?_, ihn⟩
        exact (ihm s hc) (List.mem_cons_self s seen)
      · intro x hx
        simp only [List.map_cons, List.mem_cons] at hx
        rcases hx with hx | hx
        · rw [hx]; exact h
        · intro hc
          exact (ihm x hx) (List.mem_cons_of_mem s hc)

/-- The seen-set collapse of two sequenced selections: selecting from `A`
and then from `B` with the accumulated variables as seen set equals one
selection from `A ++ B`. -/
theorem sel_chain (A B : List (Symb × Ty)) (vars : List (Symb × Ty)) :
    (vars ++ (sel A (vars.map Prod.fst)).1) ++
      (sel B (((vars ++ (sel A (vars.map Prod.fst)).1).map Prod.fst))).1
    = vars ++ (sel (A ++ B) (vars.map Prod.fst)).1 := by
  rw [sel_append, List.append_assoc]
  have hcong := sel_congr B ((vars ++ (sel A (vars.map Prod.fst)).1).map Prod.fst)
      (sel A (vars.map Prod.fst)).2 ?_
  · rw [hcong.1]
  · intro x
    rw [sel_seen_mem]
    simp [List.mem_append]

mutual
/-- The free occurrences of local variables in traversal order: an
occurrence is free when its symbol is not in the `bound` list of enclosing
binders (lambda and block binders for their bodies and bindings,
quantifier binders for their ranges, triggers, condition and body). -/
def free_occurrences (env : GlobalEnv) (bound : List Symb) : ExpData → List (Symb × Ty)
  | .Invalid _ => []
  | .Value _ _ => []
  | .Temporary _ _ => []
  | .LocalVar id sym => if sym ∈ bound then [] else [(sym, env.get_node_type id)]
  | .Call _ _ args => foList env bound args
  | .Invoke _ target args => free_occurrences env bound target ++ foList env bound args
  | .Lambda _ decls body =>
      free_occurrences env (bound ++ decls.map LocalVarDecl.name) body
  | .Quant _ _ ranges triggers cond body =>
      foRanges env (bound ++ ranges.map (fun p => p.1.name)) ranges ++
        (foTriggers env (bound ++ ranges.map (fun p => p.1.name)) triggers ++
          (foOpt env (bound ++ ranges.map (fun p => p.1.name)) cond ++
            free_occurrences env (bound ++ ranges.map (fun p => p.1.name)) body))
  | .Block _ decls body =>
      foDecls env (bound ++ decls.map LocalVarDecl.name) decls ++
        free_occurrences env (bound ++ decls.map LocalVarDecl.name) body
  | .IfElse _ c t e2 =>
      free_occurrences env bound c ++
        (free_occurrences env bound t ++ free_occurrences env bound e2)

def foList (env : GlobalEnv) (bound : List Symb) : List ExpData → List (Symb × Ty)
  | [] => []
  | e :: rest => free_occurrences env bound e ++ foList env bound rest

def foRanges (env : GlobalEnv) (bound : List Symb) :
    List (LocalVarDecl × ExpData) → List (Symb × Ty)
  | [] => []
  | (.mk _ _ (some b), r) :: rest =>
      free_occurrences env bound b ++
        (free_occurrences env bound r ++ foRanges env bound rest)
  | (.mk _ _ none, r) :: rest =>
      free_occurrences env bound r ++ foRanges env bound rest

def foTriggers (env : GlobalEnv) (bound : List Symb) : List (List ExpData) → List (Symb × Ty)
  | [] => []
  | t :: rest => foList env bound t ++ foTriggers env bound rest

def foOpt (env : GlobalEnv) (bound : List Symb) : Option ExpData → List (Symb × Ty)
  | some e => free_occurrences env bound e
  | none => []

def foDecls (env : GlobalEnv) (bound : List Symb) : List LocalVarDecl → List (Symb × Ty)
  | [] => []
  | .mk _ _ (some b) :: rest => free_occurrences env bound b ++ foDecls env bound rest
  | .mk _ _ none :: rest => foDecls env bound rest
end

mutual
theorem fo_congr (env : GlobalEnv) (b1 b2 : List Symb) (h : ∀ x, x ∈ b1 ↔ x ∈ b2) :
    ∀ e, free_occurrences env b1 e = free_occurrences env b2 e := by
  intro e
  cases e with
  | Invalid id => rw [free_occurrences, free_occurrences]
  | Value id v => rw [free_occurrences, free_occurrences]
  | Temporary id t => rw [free_occurrences, free_occurrences]
  | LocalVar id sym =>
    rw [free_occurrences, free_occurrences]
    by_cases hs : sym ∈ b1
    · rw [if_pos hs, if_pos ((h sym).mp hs)]
    · rw [if_neg hs, if_neg (fun hc => hs ((h sym).mpr hc))]
  | Call id op args => rw [free_occurrences, free_occurrences, foList_congr env b1 b2 h]
  | Invoke id target args =>
    rw [free_occurrences, free_occurrences, fo_congr env b1 b2 h target,
      foList_congr env b1 b2 h]
  | Lambda id ds body =>
    rw [free_occurrences, free_occurrences]
    exact fo_congr env _ _ (fun x => by simp only [List.mem_append, h x]) body
  | Quant id k ranges triggers cond body =>
    rw [free_occurrences, free_occurrences]
    have h2 : ∀ x, x ∈ b1 ++ ranges.map (fun p => p.1.name) ↔
        x ∈ b2 ++ ranges.map (fun p => p.1.name) := by
      intro x
      simp only [List.mem_append, h x]
    rw [foRanges_congr env _ _ h2, foTriggers_congr env _ _ h2, foOpt_congr env _ _ h2,
      fo_congr env _ _ h2 body]
  | Block id ds body =>
    rw [free_occurrences, free_occurrences]
    have h2 : ∀ x, x ∈ b1 ++ ds.map LocalVarDecl.name ↔
        x ∈ b2 ++ ds.map LocalVarDecl.name := by
      intro x
      simp only [List.mem_append, h x]
    rw [foDecls_congr env _ _ h2, fo_congr env _ _ h2 body]
  | IfElse id c t e2 =>
    rw [free_occurrences, free_occurrences, fo_congr env b1 b2 h c, fo_congr env b1 b2 h t,
      fo_congr env b1 b2 h e2]

theorem foList_congr (env : GlobalEnv) (b1 b2 : List Symb) (h : ∀ x, x ∈ b1 ↔ x ∈ b2) :
    ∀ es, foList env b1 es = foList env b2 es := by
  intro es
  cases es with
  | nil => rw [foList, foList]
  | cons e rest =>
    rw [foList, foList, fo_congr env b1 b2 h e, foList_congr env b1 b2 h rest]

theorem foRanges_congr (env : GlobalEnv) (b1 b2 : List Symb) (h : ∀ x, x ∈ b1 ↔ x ∈ b2) :
    ∀ rs, foRanges env b1 rs = foRanges env b2 rs := by
  intro rs
  cases rs with
  | nil => rw [foRanges, foRanges]
  | cons pr rest =>
    obtain ⟨d, r⟩ := pr
    cases d with
    | mk id s ob =>
      cases ob with
      | some b =>
        rw [foRanges, foRanges, fo_congr env b1 b2 h b, fo_congr env b1 b2 h r,
          foRanges_congr env b1 b2 h rest]
      | none =>
        rw [foRanges, foRanges, fo_congr env b1 b2 h r, foRanges_congr env b1 b2 h rest]

theorem foTriggers_congr (env : GlobalEnv) (b1 b2 : List Symb) (h : ∀ x, x ∈ b1 ↔ x ∈ b2) :
    ∀ ts, foTriggers env b1 ts = foTriggers env b2 ts := by
  intro ts
  cases ts with
  | nil => rw [foTriggers, foTriggers]
  | cons t rest =>
    rw [foTriggers, foTriggers, foList_congr env b1 b2 h t, foTriggers_congr env b1 b2 h rest]

theorem foOpt_congr (env : GlobalEnv) (b1 b2 : List Symb) (h : ∀ x, x ∈ b1 ↔ x ∈ b2) :
    ∀ oe, foOpt env b1 oe = foOpt env b2 oe := by
  intro oe
  cases oe with
  | some e => rw [foOpt, foOpt, fo_congr env b1 b2 h e]
  | none => rw [foOpt, foOpt]

theorem foDecls_congr (env : GlobalEnv) (b1 b2 : List Symb) (h : ∀ x, x ∈ b1 ↔ x ∈ b2) :
    ∀ ds, foDecls env b1 ds = foDecls env b2 ds := by
  intro ds
  cases ds with
  | nil => rw [foDecls, foDecls]
  | cons d rest =>
    cases d with
    | mk id s ob =>
      cases ob with
      | some b =>
        rw [foDecls, foDecls, fo_congr env b1 b2 h b, foDecls_congr env b1 b2 h rest]
      | none => rw [foDecls, foDecls, foDecls_congr env b1 b2 h rest]
end

theorem erase_fold_perm :
    ∀ (ds sh bound : List Symb), sh.Perm (bound ++ ds) →
      (ds.foldl (fun l s => l.erase s) sh).Perm bound := by
  intro ds
  induction ds with
  | nil =>
    intro sh bound h
    simpa using h
  | cons d rest ih =>
    intro sh bound h
    rw [List.foldl_cons]
    refine ih (sh.erase d) bound ?_
    have h1 : (sh.erase d).Perm ((bound ++ d :: rest).erase d) := h.erase d
    have h2 : (bound ++ d :: rest).Perm (d :: (bound ++ rest)) := List.perm_middle
    have h3 : ((bound ++ d :: rest).erase d).Perm ((d :: (bound ++ rest)).erase d) :=
      h2.erase d
    rw [List.erase_cons_head] at h3
    exact h1.trans h3

/-- The pre phase of the free_vars visitor appends the binders. -/
theorem fvStep_pre (env : GlobalEnv) (e : ExpData) (st : List Symb × List (Symb × Ty)) :
    fvStep env false e st = (st.1 ++ fv_decls e, st.2) := rfl

/-- Composing two sequenced traversal stages at the state level. -/
theorem chain_state (st1 st2 : List Symb × List (Symb × Ty))
    (vars : List (Symb × Ty)) (A B : List (Symb × Ty)) (bound : List Symb)
    (h12 : st1.2 = vars ++ (sel A (vars.map Prod.fst)).1)
    (h11 : st1.1.Perm bound)
    (h22 : st2.2 = st1.2 ++ (sel B (st1.2.map Prod.fst)).1)
    (h21 : st2.1.Perm st1.1) :
    st2.2 = vars ++ (sel (A ++ B) (vars.map Prod.fst)).1 ∧ st2.1.Perm bound := by
  constructor
  · rw [h22, h12, sel_chain]
  · exact h21.trans h11

mutual
theorem fvE (env : GlobalEnv) (e : ExpData) (st : List Symb × List (Symb × Ty)) :
    (visit_pre_post (fvStep env) e st).2
      = st.2 ++ (sel (free_occurrences env st.1 e) (st.2.map Prod.fst)).1
    ∧ ((visit_pre_post (fvStep env) e st).1).Perm st.1 := by
  obtain ⟨sh, vars⟩ := st
  cases e with
  | Invalid id =>
    rw [visit_pre_post]
    constructor
    · show vars = vars ++ (sel (free_occurrences env sh (.Invalid id)) (vars.map Prod.fst)).1
      rw [free_occurrences, sel]
      simp
    · show (sh ++ []).Perm sh
      simp
  | Value id v =>
    rw [visit_pre_post]
    constructor
    · show vars = vars ++ (sel (free_occurrences env sh (.Value id v)) (vars.map Prod.fst)).1
      rw [free_occurrences, sel]
      simp
    · show (sh ++ []).Perm sh
      simp
  | Temporary id t =>
    rw [visit_pre_post]
    constructor
    · show vars
        = vars ++ (sel (free_occurrences env sh (.Temporary id t)) (vars.map Prod.fst)).1
      rw [free_occurrences, sel]
      simp
    · show (sh ++ []).Perm sh
      simp
  | LocalVar id sym =>
    rw [visit_pre_post]
    have hpost : fvStep env true (.LocalVar id sym) (fvStep env false (.LocalVar id sym) (sh, vars))
        = if sym ∉ sh ++ [] ∧ ¬ (∃ p ∈ vars, p.1 = sym) then
            (sh ++ [], vars ++ [(sym, env.get_node_type id)])
          else (sh ++ [], vars) := rfl
    rw [hpost]
    by_cases h1 : sym ∈ sh
    · rw [if_neg (by simp [h1])]
      constructor
      · rw [free_occurrences, if_pos h1, sel]
        simp
      · simp
    · by_cases h2 : ∃ p ∈ vars, p.1 = sym
      · rw [if_neg (by simp [h2])]
        constructor
        · have hseen : sym ∈ vars.map Prod.fst := List.mem_map.mpr h2
          rw [free_occurrences, if_neg h1, sel, if_pos hseen, sel]
          simp
        · simp
      · rw [if_pos (by simp [h1, h2])]
        constructor
        · have hseen : sym ∉ vars.map Prod.fst := fun hc => h2 (List.mem_map.mp hc)
          rw [free_occurrences, if_neg h1, sel, if_neg hseen, sel]
        · simp
  | Call id op args =>
    rw [visit_pre_post, fvStep_pre]
    have hpost : ∀ st2 : List Symb × List (Symb × Ty),
        fvStep env true (.Call id op args) st2 = st2 := fun _ => rfl
    rw [hpost]
    obtain ⟨hL2, hL1⟩ := fvL env args (sh ++ fv_decls (.Call id op args), vars)
    constructor
    · rw [hL2]
      show vars ++ _ = vars ++ _
      rw [free_occurrences]
      have : foList env (sh ++ fv_decls (.Call id op args)) args = foList env sh args := by
        refine foList_congr env _ _ (fun x => ?_) args
        have hfd : fv_decls (.Call id op args) = [] := rfl
        rw [hfd]
        simp
      rw [this]
    · refine hL1.trans ?_
      have hfd : fv_decls (.Call id op args) = [] := rfl
      rw [hfd]
      simp
  | Invoke id target args =>
    rw [visit_pre_post, fvStep_pre]
    have hpost : ∀ st2 : List Symb × List (Symb × Ty),
        fvStep env true (.Invoke id target args) st2 = st2 := fun _ => rfl
    rw [hpost]
    have hds : sh ++ fv_decls (.Invoke id target args) = sh ++ [] := rfl
    rw [hds]
    obtain ⟨hE2, hE1⟩ := fvE env target (sh ++ [], vars)
    obtain ⟨hL2, hL1⟩ := fvL env args (visit_pre_post (fvStep env) target (sh ++ [], vars))
    have hcongL : foList env (visit_pre_post (fvStep env) target (sh ++ [], vars)).1 args
        = foList env (sh ++ []) args :=
      foList_congr env _ _ (fun x => hE1.mem_iff) args
    rw [hcongL] at hL2
    obtain ⟨hc2, hc1⟩ := chain_state _ _ vars
      (free_occurrences env (sh ++ []) target) (foList env (sh ++ []) args) (sh ++ [])
      hE2 hE1 hL2 hL1
    constructor
    · rw [hc2, free_occurrences]
      have h1 : free_occurrences env (sh ++ []) target = free_occurrences env sh target :=
        fo_congr env _ _ (fun x => by simp) target
      have h2 : foList env (sh ++ []) args = foList env sh args :=
        foList_congr env _ _ (fun x => by simp) args
      rw [h1, h2]
    · refine hc1.trans ?_
      simp
  | Lambda id ds body =>
    rw [visit_pre_post, fvStep_pre]
    have hpost : ∀ st2 : List Symb × List (Symb × Ty),
        fvStep env true (.Lambda id ds body) st2
          = ((fv_decls (.Lambda id ds body)).foldl (fun l s => l.erase s) st2.1, st2.2) :=
      fun _ => rfl
    rw [hpost]
    obtain ⟨hE2, hE1⟩ := fvE env body (sh ++ fv_decls (.Lambda id ds body), vars)
    constructor
    · rw [hE2]
      show vars ++ _ = vars ++ _
      rw [free_occurrences, fv_decls]
    · refine erase_fold_perm _ _ sh ?_
      refine hE1.trans ?_
      exact List.Perm.refl _
  | Quant id k ranges triggers cond body =>
    rw [visit_pre_post, fvStep_pre]
    have hpost : ∀ st2 : List Symb × List (Symb × Ty),
        fvStep env true (.Quant id k ranges triggers cond body) st2
          = ((fv_decls (.Quant id k ranges triggers cond body)).foldl
              (fun l s => l.erase s) st2.1, st2.2) :=
      fun _ => rfl
    rw [hpost]
    have hds : fv_decls (.Quant id k ranges triggers cond body)
        = ranges.map (fun p => p.1.name) := rfl
    set bound2 := sh ++ ranges.map (fun p => p.1.name) with hbound2
    have hstart : sh ++ fv_decls (.Quant id k ranges triggers cond body) = bound2 := by
      rw [hds, hbound2]
    rw [hstart]
    set st1 := vppRanges (fvStep env) ranges (bound2, vars) with hst1
    set st2 := vppTriggers (fvStep env) triggers st1 with hst2
    set st3 := vppOpt (fvStep env) cond st2 with hst3
    set st4 := visit_pre_post (fvStep env) body st3 with hst4
    obtain ⟨hR2, hR1⟩ := fvR env ranges (bound2, vars)
    obtain ⟨hT2, hT1⟩ := fvT env triggers st1
    obtain ⟨hO2, hO1⟩ := fvO env cond st2
    obtain ⟨hB2, hB1⟩ := fvE env body st3
    rw [foTriggers_congr env st1.1 bound2 (fun x => hR1.mem_iff) triggers] at hT2
    obtain ⟨hc2, hc1⟩ := chain_state st1 st2 vars
      (foRanges env bound2 ranges) (foTriggers env bound2 triggers) bound2 hR2 hR1 hT2 hT1
    rw [foOpt_congr env st2.1 bound2 (fun x => hc1.mem_iff) cond] at hO2
    obtain ⟨hd2, hd1⟩ := chain_state st2 st3 vars
      (foRanges env bound2 ranges ++ foTriggers env bound2 triggers)
      (foOpt env bound2 cond) bound2 hc2 hc1 hO2 hO1
    rw [fo_congr env st3.1 bound2 (fun x => hd1.mem_iff) body] at hB2
    obtain ⟨he2, he1⟩ := chain_state st3 st4 vars
      ((foRanges env bound2 ranges ++ foTriggers env bound2 triggers) ++ foOpt env bound2 cond)
      (free_occurrences env bound2 body) bound2 hd2 hd1 hB2 hB1
    constructor
    · rw [he2]
      show vars ++ _ = vars ++ _
      rw [free_occurrences]
      rw [List.append_assoc, List.append_assoc]
    · rw [hds]
      exact erase_fold_perm _ _ sh he1
  | Block id ds body =>
    rw [visit_pre_post, fvStep_pre]
    have hpost : ∀ st2 : List Symb × List (Symb × Ty),
        fvStep env true (.Block id ds body) st2
          = ((fv_decls (.Block id ds body)).foldl (fun l s => l.erase s) st2.1, st2.2) :=
      fun _ => rfl
    rw [hpost]
    have hds : fv_decls (.Block id ds body) = ds.map LocalVarDecl.name := rfl
    set bound2 := sh ++ ds.map LocalVarDecl.name with hbound2
    have hstart : sh ++ fv_decls (.Block id ds body) = bound2 := by rw [hds, hbound2]
    rw [hstart]
    set st1 := vppDecls (fvStep env) ds (bound2, vars) with hst1
    set st2 := visit_pre_post (fvStep env) body st1 with hst2
    obtain ⟨hD2, hD1⟩ := fvD env ds (bound2, vars)
    obtain ⟨hB2, hB1⟩ := fvE env body st1
    rw [fo_congr env st1.1 bound2 (fun x => hD1.mem_iff) body] at hB2
    obtain ⟨hc2, hc1⟩ := chain_state st1 st2 vars
      (foDecls env bound2 ds) (free_occurrences env bound2 body) bound2 hD2 hD1 hB2 hB1
    constructor
    · rw [hc2]
      show vars ++ _ = vars ++ _
      rw [free_occurrences]
    · rw [hds]
      exact erase_fold_perm _ _ sh hc1
  | IfElse id c t e2 =>
    rw [visit_pre_post, fvStep_pre]
    have hpost : ∀ st2 : List Symb × List (Symb × Ty),
        fvStep env true (.IfElse id c t e2) st2 = st2 := fun _ => rfl
    rw [hpost]
    have hds : sh ++ fv_decls (.IfElse id c t e2) = sh ++ [] := rfl
    rw [hds]
    set st1 := visit_pre_post (fvStep env) c (sh ++ [], vars) with hst1
    set st2 := visit_pre_post (fvStep env) t st1 with hst2
    set st3 := visit_pre_post (fvStep env) e2 st2 with hst3
    obtain ⟨hc2, hc1⟩ := fvE env c (sh ++ [], vars)
    obtain ⟨ht2, ht1⟩ := fvE env t st1
    obtain ⟨he2, he1⟩ := fvE env e2 st2
    rw [fo_congr env st1.1 (sh ++ []) (fun x => hc1.mem_iff) t] at ht2
    obtain ⟨hx2, hx1⟩ := chain_state st1 st2 vars
      (free_occurrences env (sh ++ []) c) (free_occurrences env (sh ++ []) t) (sh ++ [])
      hc2 hc1 ht2 ht1
    rw [fo_congr env st2.1 (sh ++ []) (fun x => hx1.mem_iff) e2] at he2
    obtain ⟨hy2, hy1⟩ := chain_state st2 st3 vars
      (free_occurrences env (sh ++ []) c ++ free_occurrences env (sh ++ []) t)
      (free_occurrences env (sh ++ []) e2) (sh ++ []) hx2 hx1 he2 he1
    constructor
    · rw [hy2]
      show vars ++ _ = vars ++ _
      rw [free_occurrences]
      have hc : free_occurrences env (sh ++ []) c = free_occurrences env sh c :=
        fo_congr env _ _ (fun x => by simp) c
      have ht : free_occurrences env (sh ++ []) t = free_occurrences env sh t :=
        fo_congr env _ _ (fun x => by simp) t
      have he : free_occurrences env (sh ++ []) e2 = free_occurrences env sh e2 :=
        fo_congr env _ _ (fun x => by simp) e2
      rw [hc, ht, he, List.append_assoc]
    · refine hy1.trans ?_
      simp

theorem fvL (env : GlobalEnv) (es : List ExpData) (st : List Symb × List (Symb × Ty)) :
    (vppList (fvStep env) es st).2
      = st.2 ++ (sel (foList env st.1 es) (st.2.map Prod.fst)).1
    ∧ ((vppList (fvStep env) es st).1).Perm st.1 := by
  obtain ⟨sh, vars⟩ := st
  cases es with
  | nil =>
    rw [vppList]
    constructor
    · rw [foList, sel]
      simp
    · exact List.Perm.refl _
  | cons e rest =>
    rw [vppList]
    set st1 := visit_pre_post (fvStep env) e (sh, vars) with hst1
    set st2 := vppList (fvStep env) rest st1 with hst2
    obtain ⟨hE2, hE1⟩ := fvE env e (sh, vars)
    obtain ⟨hL2, hL1⟩ := fvL env rest st1
    rw [foList_congr env st1.1 sh (fun x => hE1.mem_iff) rest] at hL2
    obtain ⟨hc2, hc1⟩ := chain_state st1 st2 vars
      (free_occurrences env sh e) (foList env sh rest) sh hE2 hE1 hL2 hL1
    exact ⟨by rw [hc2, foList], hc1⟩

theorem fvR (env : GlobalEnv) (rs : List (LocalVarDecl × ExpData))
    (st : List Symb × List (Symb × Ty)) :
    (vppRanges (fvStep env) rs st).2
      = st.2 ++ (sel (foRanges env st.1 rs) (st.2.map Prod.fst)).1
    ∧ ((vppRanges (fvStep env) rs st).1).Perm st.1 := by
  obtain ⟨sh, vars⟩ := st
  cases rs with
  | nil =>
    rw [vppRanges]
    constructor
    · rw [foRanges, sel]
      simp
    · exact List.Perm.refl _
  | cons pr rest =>
    obtain ⟨d, r⟩ := pr
    cases d with
    | mk did dname ob =>
      cases ob with
      | some b =>
        rw [vppRanges]
        set st1 := visit_pre_post (fvStep env) b (sh, vars) with hst1
        set st2 := visit_pre_post (fvStep env) r st1 with hst2
        set st3 := vppRanges (fvStep env) rest st2 with hst3
        obtain ⟨hB2, hB1⟩ := fvE env b (sh, vars)
        obtain ⟨hr2, hr1⟩ := fvE env r st1
        obtain ⟨hL2, hL1⟩ := fvR env rest st2
        rw [fo_congr env st1.1 sh (fun x => hB1.mem_iff) r] at hr2
        obtain ⟨hc2, hc1⟩ := chain_state st1 st2 vars
          (free_occurrences env sh b) (free_occurrences env sh r) sh hB2 hB1 hr2 hr1
        rw [foRanges_congr env st2.1 sh (fun x => hc1.mem_iff) rest] at hL2
        obtain ⟨hd2, hd1⟩ := chain_state st2 st3 vars
          (free_occurrences env sh b ++ free_occurrences env sh r)
          (foRanges env sh rest) sh hc2 hc1 hL2 hL1
        constructor
        · rw [hd2]
          show vars ++ _ = vars ++ _
          rw [foRanges, List.append_assoc]
        · exact hd1
      | none =>
        rw [vppRanges]
        set st1 := visit_pre_post (fvStep env) r (sh, vars) with hst1
        set st2 := vppRanges (fvStep env) rest st1 with hst2
        obtain ⟨hr2, hr1⟩ := fvE env r (sh, vars)
        obtain ⟨hL2, hL1⟩ := fvR env rest st1
        rw [foRanges_congr env st1.1 sh (fun x => hr1.mem_iff) rest] at hL2
        obtain ⟨hc2, hc1⟩ := chain_state st1 st2 vars
          (free_occurrences env sh r) (foRanges env sh rest) sh hr2 hr1 hL2 hL1
        exact ⟨by rw [hc2, foRanges], hc1⟩

theorem fvT (env : GlobalEnv) (ts : List (List ExpData))
    (st : List Symb × List (Symb × Ty)) :
    (vppTriggers (fvStep env) ts st).2
      = st.2 ++ (sel (foTriggers env st.1 ts) (st.2.map Prod.fst)).1
    ∧ ((vppTriggers (fvStep env) ts st).1).Perm st.1 := by
  obtain ⟨sh, vars⟩ := st
  cases ts with
  | nil =>
    rw [vppTriggers]
    constructor
    · rw [foTriggers, sel]
      simp
    · exact List.Perm.refl _
  | cons t rest =>
    rw [vppTriggers]
    set st1 := vppList (fvStep env) t (sh, vars) with hst1
    set st2 := vppTriggers (fvStep env) rest st1 with hst2
    obtain ⟨hL2, hL1⟩ := fvL env t (sh, vars)
    obtain ⟨hT2, hT1⟩ := fvT env rest st1
    rw [foTriggers_congr env st1.1 sh (fun x => hL1.mem_iff) rest] at hT2
    obtain ⟨hc2, hc1⟩ := chain_state st1 st2 vars
      (foList env sh t) (foTriggers env sh rest) sh hL2 hL1 hT2 hT1
    exact ⟨by rw [hc2, foTriggers], hc1⟩

theorem fvO (env : GlobalEnv) (oe : Option ExpData) (st : List Symb × List (Symb × Ty)) :
    (vppOpt (fvStep env) oe st).2
      = st.2 ++ (sel (foOpt env st.1 oe) (st.2.map Prod.fst)).1
    ∧ ((vppOpt (fvStep env) oe st).1).Perm st.1 := by
  obtain ⟨sh, vars⟩ := st
  cases oe with
  | some e =>
    rw [vppOpt]
    obtain ⟨hE2, hE1⟩ := fvE env e (sh, vars)
    exact ⟨by rw [hE2, foOpt], hE1⟩
  | none =>
    rw [vppOpt]
    constructor
    · rw [foOpt, sel]
      simp
    · exact List.Perm.refl _

theorem fvD (env : GlobalEnv) (ds : List LocalVarDecl) (st : List Symb × List (Symb × Ty)) :
    (vppDecls (fvStep env) ds st).2
      = st.2 ++ (sel (foDecls env st.1 ds) (st.2.map Prod.fst)).1
    ∧ ((vppDecls (fvStep env) ds st).1).Perm st.1 := by
  obtain ⟨sh, vars⟩ := st
  cases ds with
  | nil =>
    rw [vppDecls]
    constructor
    · rw [foDecls, sel]
      simp
    · exact List.Perm.refl _
  | cons d rest =>
    cases d with
    | mk did dname ob =>
      cases ob with
      | some b =>
        rw [vppDecls]
        set st1 := visit_pre_post (fvStep env) b (sh, vars) with hst1
        set st2 := vppDecls (fvStep env) rest st1 with hst2
        obtain ⟨hB2, hB1⟩ := fvE env b (sh, vars)
        obtain ⟨hD2, hD1⟩ := fvD env rest st1
        rw [foDecls_congr env st1.1 sh (fun x => hB1.mem_iff) rest] at hD2
        obtain ⟨hc2, hc1⟩ := chain_state st1 st2 vars
          (free_occurrences env sh b) (foDecls env sh rest) sh hB2 hB1 hD2 hD1
        exact ⟨by rw [hc2, foDecls], hc1⟩
      | none =>
        rw [vppDecls]
        obtain ⟨hD2, hD1⟩ := fvD env rest (sh, vars)
        exact ⟨by rw [hD2, foDecls], hD1⟩
end

/-- A quantifier binding symbol 5 whose body uses symbol 5 under a nested
quantifier binding symbol 5 again, and uses it once more after the inner
quantifier has been exited (still under the outer binder). -/
def nested_shadowing_exp : ExpData :=
  .Quant 0 .Forall [(.mk 6 5 none, .Value 7 (.Number 0))] [] none
    (.Call 8 .And
      [.Quant 1 .Forall [(.mk 2 5 none, .Value 3 (.Number 0))] [] none (.LocalVar 4 5),
        .LocalVar 9 5])

/-- C6. `free_vars` returns exactly the deduplicated-by-first-occurrence
selection from the free occurrences of the expression (occurrences of
variables not bound by an enclosing lambda, block or quantifier, in
traversal order); its names are pairwise distinct; every returned pair is a
genuine free occurrence; and in the nested re-shadowing example no entry is
returned for the doubly bound symbol, exiting the inner binder not
unshadowing the occurrence under the outer binder. -/
theorem free_vars_c6 :
    (∀ (env : GlobalEnv) (e : ExpData),
      e.free_vars env = (sel (free_occurrences env [] e) []).1)
    ∧ (∀ (env : GlobalEnv) (e : ExpData), ((e.free_vars env).map Prod.fst).Nodup)
    ∧ (∀ (env : GlobalEnv) (e : ExpData) (p : Symb × Ty),
        p ∈ e.free_vars env → p ∈ free_occurrences env [] e)
    ∧ (∀ env : GlobalEnv, ExpData.free_vars env nested_shadowing_exp = []) := by
  have hmain : ∀ (env : GlobalEnv) (e : ExpData),
      e.free_vars env = (sel (free_occurrences env [] e) []).1 := by
    intro env e
    rw [ExpData.free_vars]
    have h := (fvE env e ([], [])).1
    simpa using h
  refine ⟨hmain, ?_, ?_, ?_⟩
  · intro env e
    rw [hmain]
    exact (sel_nodup _ _).1
  · intro env e p hp
    rw [hmain] at hp
    exact sel_mem_sub _ _ p hp
  · intro env
    rw [hmain]
    simp [nested_shadowing_exp, free_occurrences, foRanges, foTriggers, foOpt, foList, sel]

/-- Witness for C6: a lone local variable is reported free with its type. -/
theorem free_vars_c6_witness :
    (5, Ty.Primitive 0) ∈ ExpData.free_vars env0 (.LocalVar 0 5) ∧
    (5, Ty.Primitive 0) ∈ free_occurrences env0 [] (.LocalVar 0 5) := by
  have hmem : (5, Ty.Primitive 0) ∈ ExpData.free_vars env0 (.LocalVar 0 5) := by
    rw [free_vars_c6.1 env0 (.LocalVar 0 5), free_occurrences]
    simp [sel, env0]
  exact ⟨hmem, free_vars_c6.2.2.1 env0 (.LocalVar 0 5) _ hmem⟩
